import Mathlib

/-!
# Verification of the dovud-back XML job-import and publish service

Shallow embedding of the JavaScript sources:
* `ImportUtil` — `utils/importJobsUtil.js` (the consolidated normalizer variant
  that the upload-and-publish route uses: row filtering, field extractors,
  HTML sanitizer, date parsing, row formatting);
* `Server` — the standalone server variant (`extractSchedule` with day/time
  pairing, `applyImportRules` admission policy);
* `Routes` — `routes/uploadAndPublish.js` (fuzzy title clustering, post
  composition, VK publish loop).

JavaScript values reaching these functions (output of `xml2js` with
`explicitArray: false`) are modelled by the inductive type `JSValue`:
`undefined`, `null`, strings, plain objects (association lists) and arrays.
Functions that can raise a `TypeError`/`RangeError` in JS are modelled in the
`Except String` monad; all other functions are plain and total.
-/

/-- A JavaScript value as produced by the XML parser: `undefined`, `null`,
a string, a plain object (field list in insertion order), or an array. -/
inductive JSValue where
  | undefined : JSValue
  | null : JSValue
  | str : String → JSValue
  | obj : List (String × JSValue) → JSValue
  | arr : List JSValue → JSValue

namespace JSValue

/-- JS truthiness for the values in our model: `undefined`, `null` and the
empty string are falsy; every other string, object and array is truthy. -/
def jsTruthy : JSValue → Bool
  | .undefined => false
  | .null => false
  | .str s => !s.data.isEmpty
  | .obj _ => true
  | .arr _ => true

/-- Property access `v[name]`: field lookup on an object, `undefined` on
everything else (strings/arrays have no such named property for the tag
names used by the code; accessing a property of `null`/`undefined` is an
error and is modelled at each call site that can reach it). -/
def getProp : JSValue → String → JSValue
  | .obj fields, name =>
    match fields.find? (fun p => p.1 = name) with
    | some p => p.2
    | none => .undefined
  | _, _ => .undefined

/-- `a || b` on JS values. -/
def jsOr (a b : JSValue) : JSValue := if jsTruthy a then a else b

mutual
/-- `String(v)` conversion as used by template literals and `Array.prototype.join`. -/
def jsToString : JSValue → String
  | .undefined => "undefined"
  | .null => "null"
  | .str s => s
  | .obj _ => "[object Object]"
  | .arr l => arrToString l

/-- `Array.prototype.toString`, i.e. `join(',')`: `null`/`undefined`
elements become empty, others are converted by `String(·)`. -/
def arrToString : List JSValue → String
  | [] => ""
  | [x] => arrElemToString x
  | x :: xs => arrElemToString x ++ "," ++ arrToString xs

/-- One element of an array under `join`: `null`/`undefined` print as empty. -/
def arrElemToString : JSValue → String
  | .undefined => ""
  | .null => ""
  | v => jsToString v
end

/-- The enumerable keys seen by `for (const key in v)`: field names of an
object, index strings of an array or a string, nothing otherwise. -/
def keysOf : JSValue → List String
  | .obj fields => fields.map (·.1)
  | .arr l => (List.range l.length).map toString
  | .str s => (List.range s.data.length).map toString
  | _ => []

/-- `v[key]` for a key produced by `for...in` (named field, or an index
into an array or string). -/
def getKey : JSValue → String → JSValue
  | .obj fields, name =>
    match fields.find? (fun p => p.1 = name) with
    | some p => p.2
    | none => .undefined
  | .arr l, name =>
    match name.toNat? with
    | some i => (l.get? i).getD .undefined
    | none => .undefined
  | .str s, name =>
    match name.toNat? with
    | some i =>
      match s.data.get? i with
      | some c => .str (String.mk [c])
      | none => .undefined
    | none => .undefined
  | _, _ => .undefined

end JSValue

/-- Reducing `Except.ok` through `>>=`, used to step through the
do-blocks of the embedded functions. -/
@[simp] theorem Except.ok_bind {ε : Type u} {a b : Type v} (x : a) (f : a → Except ε b) :
    (Except.ok x >>= f : Except ε b) = f x := rfl

/-- An error short-circuits `>>=`. -/
@[simp] theorem Except.error_bind {ε : Type u} {a b : Type v} (e : ε) (f : a → Except ε b) :
    (Except.error e >>= f : Except ε b) = Except.error e := rfl

/-! ## Character classes used by the JS regexes -/

/-- The character class `\s` of JS regexes (also the set trimmed by
`String.prototype.trim`): ASCII whitespace, NBSP, BOM and the Unicode
space separators. -/
def isJsWs (c : Char) : Bool :=
  c.toNat = 9 ∨ c.toNat = 10 ∨ c.toNat = 11 ∨ c.toNat = 12 ∨ c.toNat = 13 ∨
  c.toNat = 32 ∨ c.toNat = 160 ∨ c.toNat = 0x1680 ∨
  (0x2000 ≤ c.toNat ∧ c.toNat ≤ 0x200A) ∨
  c.toNat = 0x2028 ∨ c.toNat = 0x2029 ∨ c.toNat = 0x202F ∨
  c.toNat = 0x205F ∨ c.toNat = 0x3000 ∨ c.toNat = 0xFEFF

/-- Line terminators, the characters `.` does not match in JS regexes. -/
def isLineTerm (c : Char) : Bool :=
  c.toNat = 10 ∨ c.toNat = 13 ∨ c.toNat = 0x2028 ∨ c.toNat = 0x2029

/-- ASCII-only lower casing, enough for the case-insensitive `i` flag on the
`<li>`/`<br>` patterns. -/
def lowerAscii (c : Char) : Char :=
  if 'A' ≤ c ∧ c ≤ 'Z' then Char.ofNat (c.toNat + 32) else c

/-- Digit value of a decimal digit character. -/
def digitToNat (c : Char) : Nat := c.toNat - 48

/-- Numeric value of a list of decimal digit characters. -/
def natOfDigits (l : List Char) : Nat := l.foldl (fun a c => 10 * a + digitToNat c) 0

namespace ImportUtil

/-! ## `cleanHtmlToText` (utils/importJobsUtil.js lines 169-185)

The JS function first collects every match of `/<li[^>]*>(.*?)<\/li>/gi`;
if there is at least one, it returns the trimmed item texts joined by
`", "`.  Otherwise it replaces `/<br\s*\/?>/gi` by `", "`, strips
`/<\/?[^>]+(>|$)/g`, collapses `/\s+/g` to a single space, trims, and
returns the result, reporting an empty string as `null`.

Each regex scan is modelled by a fuel-indexed structural recursion; the
fuel is instantiated with the length of the scanned list, which is always
sufficient because every step consumes at least one character. -/

/-- Does the list start with `<li` (case-insensitively)? -/
def startsLi : List Char → Bool
  | a :: b :: c :: _ => a = '<' ∧ lowerAscii b = 'l' ∧ lowerAscii c = 'i'
  | _ => false

/-- Does the list start with `</li>` (case-insensitively)? -/
def startsCloseLi : List Char → Bool
  | a :: b :: c :: d :: e :: _ =>
    a = '<' ∧ b = '/' ∧ lowerAscii c = 'l' ∧ lowerAscii d = 'i' ∧ e = '>'
  | _ => false

/-- The lazy group `(.*?)` followed by `<\/li>`: scan for the nearest
case-insensitive `</li>`, failing if a line terminator is hit first
(`.` does not match line terminators).  Returns the captured text and the
remainder after the closing tag. -/
def findCloseLi : List Char → Option (List Char × List Char)
  | [] => none
  | c :: cs =>
    if startsCloseLi (c :: cs) then some ([], (c :: cs).drop 5)
    else if isLineTerm c then none
    else
      match findCloseLi cs with
      | some (cap, rem) => some (c :: cap, rem)
      | none => none

/-- Fuelled scan collecting the group captures of `/<li[^>]*>(.*?)<\/li>/gi`,
resuming after each match (like `matchAll`) and advancing one character
after a failed match attempt. -/
def liGo : Nat → List Char → List (List Char)
  | 0, _ => []
  | _ + 1, [] => []
  | n + 1, c :: cs =>
    if startsLi (c :: cs) then
      let rest1 := cs.drop 2
      let run := rest1.takeWhile (fun x => x ≠ '>')
      match rest1.drop run.length with
      | '>' :: body =>
        match findCloseLi body with
        | some (cap, rem) => cap :: liGo n rem
        | none => liGo n cs
      | _ => liGo n cs
    else liGo n cs

/-- All group captures of `/<li[^>]*>(.*?)<\/li>/gi` over the input. -/
def liCaptures (l : List Char) : List (List Char) := liGo l.length l

/-- One attempt to match `/<br\s*\/?>/i` at the head of the list; on success
returns the remainder after the match. -/
def tryBr : List Char → Option (List Char)
  | '<' :: b :: r :: rest =>
    if lowerAscii b = 'b' ∧ lowerAscii r = 'r' then
      let ws := rest.takeWhile isJsWs
      match rest.drop ws.length with
      | '/' :: '>' :: rem => some rem
      | '>' :: rem => some rem
      | _ => none
    else none
  | _ => none

/-- Fuelled global replacement of `/<br\s*\/?>/gi` by `", "`. -/
def brGo : Nat → List Char → List Char
  | 0, l => l
  | _ + 1, [] => []
  | n + 1, c :: cs =>
    match tryBr (c :: cs) with
    | some rem => ',' :: ' ' :: brGo n rem
    | none => c :: brGo n cs

/-- `htmlString.replace(/<br\s*\/?>/gi, ', ')`. -/
def brReplace (l : List Char) : List Char := brGo l.length l

/-- Fuelled global deletion of `/<\/?[^>]+(>|$)/g`.  The optional slash is
subsumed by `[^>]+` (any non-empty run of non-`>` characters matches);
when the run reaches the end of the input the `$` alternative consumes
everything to the end. -/
def tagGo : Nat → List Char → List Char
  | 0, l => l
  | _ + 1, [] => []
  | n + 1, c :: cs =>
    if c = '<' then
      let run := cs.takeWhile (fun x => x ≠ '>')
      if run.isEmpty then '<' :: tagGo n cs
      else
        match cs.drop run.length with
        | '>' :: rem => tagGo n rem
        | _ => []
    else c :: tagGo n cs

/-- `text.replace(/<\/?[^>]+(>|$)/g, '')`. -/
def tagStrip (l : List Char) : List Char := tagGo l.length l

/-- `text.replace(/\s+/g, ' ')`: each maximal whitespace run becomes one
space.  The boolean records whether we are inside a run. -/
def collapseGo : Bool → List Char → List Char
  | _, [] => []
  | b, c :: cs =>
    if isJsWs c then
      if b then collapseGo true cs else ' ' :: collapseGo true cs
    else c :: collapseGo false cs

/-- `text.replace(/\s+/g, ' ')`. -/
def collapseWs (l : List Char) : List Char := collapseGo false l

/-- Remove trailing JS whitespace. -/
def trimRight (l : List Char) : List Char := (l.reverse.dropWhile isJsWs).reverse

/-- `String.prototype.trim`. -/
def jsTrim (l : List Char) : List Char := trimRight (l.dropWhile isJsWs)

/-- `", "` as a character list. -/
def commaSpace : List Char := [',', ' ']

/-- `listItems.join(', ')` on character lists. -/
def joinCommaSpace (ls : List (List Char)) : List Char := List.intercalate commaSpace ls

/-- The sanitizer core on a non-empty input string (as characters).
Returns `none` exactly when the non-list branch trims to empty
(`return text || null`); note that the list branch returns the join
unconditionally, even when it is empty. -/
def cleanCore (l : List Char) : Option (List Char) :=
  let caps := liCaptures l
  if caps.isEmpty then
    let t := jsTrim (collapseWs (tagStrip (brReplace l)))
    if t.isEmpty then none else some t
  else some (joinCommaSpace (caps.map jsTrim))

/-- `cleanHtmlToText` on a string-or-absent input (the shapes the spec's
sanitizer contract covers): falsy inputs (`null`/`undefined`/`""`) give
`null`. -/
def cleanHtmlToText : Option String → Option String
  | none => none
  | some s => if s.data.isEmpty then none else (cleanCore s.data).map String.mk

/-- `cleanHtmlToText` on a raw JS value, as called from the row formatter:
a truthy non-string (object/array) would hit `htmlString.matchAll`, which
is a `TypeError`. -/
def cleanHtmlToTextJS : JSValue → Except String (Option String)
  | .undefined => .ok none
  | .null => .ok none
  | .str s => .ok (cleanHtmlToText (some s))
  | .obj _ => .error "TypeError"
  | .arr _ => .error "TypeError"

end ImportUtil

namespace ImportUtil

/-! ## Date handling (utils/importJobsUtil.js lines 188-202) -/

/-- `dateStr.split('.')` on character lists (separator is the single
character `.`; both JS `split` and this function return `[""]` on the
empty string and keep empty segments). -/
def splitDot : List Char → List (List Char)
  | [] => [[]]
  | c :: cs =>
    if c = '.' then [] :: splitDot cs
    else
      match splitDot cs with
      | h :: t => (c :: h) :: t
      | [] => [[c]]

/-- `parseDate` on the character list of a truthy string: split on `.`,
require three parts, prepend `20` to a two-character year, and assemble
`fullYear-month-day` with no further validation. -/
def parseDateCore (l : List Char) : Option (List Char)  :=
  match splitDot l with
  | [day, month, year] =>
    let fullYear := if year.length = 2 then '2' :: '0' :: year else year
    some (fullYear ++ '-' :: month ++ '-' :: day)
  | _ => none

/-- `parseDate(dateStr)` (lines 188-195): falsy input gives `null`; a truthy
non-string would throw at `dateStr.split`. -/
def parseDate (v : JSValue) : Except String (Option String) :=
  match v with
  | .undefined => .ok none
  | .null => .ok none
  | .str s => if s.data.isEmpty then .ok none else .ok ((parseDateCore s.data).map String.mk)
  | .obj _ => .error "TypeError"
  | .arr _ => .error "TypeError"

/-- `parseInt(x, 10)`: skip leading whitespace, optional sign, then the
longest prefix of decimal digits; `NaN` (here `none`) if there is none. -/
def jsParseInt (s : String) : Option Int :=
  let l := s.data.dropWhile isJsWs
  match l with
  | '-' :: rest =>
    let ds := rest.takeWhile Char.isDigit
    if ds.isEmpty then none else some (-(natOfDigits ds : Int))
  | '+' :: rest =>
    let ds := rest.takeWhile Char.isDigit
    if ds.isEmpty then none else some (natOfDigits ds : Int)
  | rest =>
    let ds := rest.takeWhile Char.isDigit
    if ds.isEmpty then none else some (natOfDigits ds : Int)

/-- Proleptic-Gregorian civil date from a count of days since 1970-01-01
(Howard Hinnant's `civil_from_days`, as used by ECMAScript's
`YearFromTime`/`MonthFromTime`/`DateFromTime`). -/
def civilFromDays (z : Int) : Int × Int × Int :=
  let z := z + 719468
  let era := z.ediv 146097
  let doe := z - era * 146097
  let yoe := (doe - doe.ediv 1460 + doe.ediv 36524 - doe.ediv 146096).ediv 365
  let y := yoe + era * 400
  let doy := doe - (365 * yoe + yoe.ediv 4 - yoe.ediv 100)
  let mp := (5 * doy + 2).ediv 153
  let d := doy - (153 * mp + 2).ediv 5 + 1
  let m := mp + (if mp < 10 then 3 else -9)
  (y + (if m ≤ 2 then 1 else 0), m, d)

/-- Left-pad a decimal rendering with zeros. -/
def padNat (width n : Nat) : String :=
  let s := toString n
  String.mk (List.replicate (width - s.data.length) '0') ++ s

/-- The date part of `Date.prototype.toISOString` for a millisecond
timestamp: UTC day, 4-digit year (or the signed 6-digit expanded form
outside years 0-9999), 2-digit month and day. -/
def isoDateOfMs (ms : Int) : String :=
  let (y, m, d) := civilFromDays (ms.ediv 86400000)
  let ys :=
    if 0 ≤ y ∧ y ≤ 9999 then padNat 4 y.toNat
    else if y < 0 then "-" ++ padNat 6 (-y).toNat
    else "+" ++ padNat 6 y.toNat
  ys ++ "-" ++ padNat 2 m.toNat ++ "-" ++ padNat 2 d.toNat

/-- The largest valid ECMAScript time value, 8.64e15 ms. -/
def maxTimeMs : Int := 8640000000000000

/-- `toISODate(timestamp)` (lines 197-202): falsy input gives `null`;
`parseInt` coerces its argument to a string, `NaN` gives `null`; otherwise
`new Date(ts * 1000).toISOString().split('T')[0]`.  A timestamp outside
the representable range makes the `Date` invalid and `toISOString` throw
a `RangeError`. -/
def toISODate (v : JSValue) : Except String (Option String) :=
  if ¬ JSValue.jsTruthy v then .ok none
  else
    match jsParseInt (JSValue.jsToString v) with
    | none => .ok none
    | some ts =>
      let ms := ts * 1000
      if maxTimeMs < ms.natAbs then .error "RangeError"
      else .ok (some (isoDateOfMs ms))

end ImportUtil

namespace ImportUtil

/-! ## Field extractors (utils/importJobsUtil.js lines 82-137) -/

/-- Does `key` end with `"-" ++ comp`?  (`key.endsWith('-' + componentName.toUpperCase())`;
the component names are passed already upper-case.) -/
def keyEndsWithComp (key comp : String) : Bool :=
  ('-' :: comp.data).isSuffixOf key.data

/-- `getAddressComponent(addressBlock, componentName)` (lines 83-91):
scan the enumerable keys in order and return the value of the first key
ending in `-COMPONENTNAME`; `null` when the block is falsy or no key
matches.  (For string/array blocks `for...in` yields index keys, which
never carry the suffix.) -/
def getAddressComponent (addressBlock : JSValue) (comp : String) : JSValue :=
  if ¬ addressBlock.jsTruthy then .null
  else
    match (addressBlock.keysOf).find? (fun k => keyEndsWithComp k comp) with
    | some k => addressBlock.getKey k
    | none => .null

/-- `[region, city, street, dom].filter(Boolean).join(', ')`. -/
def joinTruthy (sep : String) (parts : List JSValue) : String :=
  String.intercalate sep ((parts.filter JSValue.jsTruthy).map JSValue.jsToString)

/-- `extractAddress(addressBlock)` (lines 93-100): suffix-matched region,
city, street and house components, truthy ones joined by `", "`.  Returns
`null` on a falsy block and a (possibly empty) string otherwise; no input
shape can make it throw. -/
def extractAddress (addressBlock : JSValue) : JSValue :=
  if ¬ addressBlock.jsTruthy then .null
  else
    .str (joinTruthy ", "
      [getAddressComponent addressBlock "OBLAST",
       getAddressComponent addressBlock "GOROD",
       getAddressComponent addressBlock "ULICA",
       getAddressComponent addressBlock "DOM"])

/-- One element of `phones.map(p => (typeof p === 'object' ? p._ : p))`:
`typeof null` is `'object'`, so a `null` element makes `p._` throw. -/
def phoneElem : JSValue → Except String JSValue
  | .null => .error "TypeError"
  | .obj fields => .ok (JSValue.getProp (.obj fields) "_")
  | .arr _ => .ok .undefined
  | v => .ok v

/-- `phones.map(p => ...)` over the number array: the map throws as soon
as `phoneElem` does. -/
def mapPhoneElems : List JSValue → Except String (List JSValue)
  | [] => .ok []
  | x :: xs => do
    let r ← phoneElem x
    let rest ← mapPhoneElems xs
    .ok (r :: rest)

/-- `extractPhone(phoneObj)` (lines 102-109).  `phones = phoneObj?.TELEF_NOMER`;
an array is mapped (throwing on `null` elements, see `phoneElem`) and joined
with `", "`; `typeof phones === 'object' && phones._` throws when `phones`
is `null` itself; a bare string passes through; anything else gives `null`. -/
def extractPhone (phoneObj : JSValue) : Except String JSValue :=
  if ¬ phoneObj.jsTruthy then .ok .null
  else
    match JSValue.getProp phoneObj "TELEF_NOMER" with
    | .arr l => do
      let parts ← mapPhoneElems l
      .ok (.str (String.intercalate ", " (parts.map JSValue.arrElemToString)))
    | .null => .error "TypeError"
    | .obj fields =>
      let u := JSValue.getProp (.obj fields) "_"
      if u.jsTruthy then .ok u else .ok .null
    | .str s => .ok (.str s)
    | .undefined => .ok .null

/-- `extractSchedule(scheduleObj)` (lines 111-137), the consolidated
variant: if `scheduleObj.GAFIK` is truthy, compose the labelled
`смена`/`дни работы`/`время работы` components; the `Array.isArray`
fallback is dead (arrays are truthy); the `typeof gafik === 'object' &&
gafik._` fallback runs only for a falsy object, i.e. `null`, whose `._`
access throws; a bare-string `scheduleObj` with falsy `GAFIK` passes
through; otherwise the joined components (empty giving `null`). -/
def extractSchedule (scheduleObj : JSValue) : Except String JSValue :=
  if ¬ scheduleObj.jsTruthy then .ok .null
  else
    let gafik := JSValue.getProp scheduleObj "GAFIK"
    if gafik.jsTruthy then
      let c1 :=
        if (JSValue.getProp gafik "SMENA1").jsTruthy then
          ["смена: " ++ JSValue.jsToString (JSValue.getProp gafik "SMENA1")]
        else []
      let c2 :=
        if (JSValue.getProp gafik "DNI_RABOTI1").jsTruthy then
          ["дни работы: " ++ JSValue.jsToString (JSValue.getProp gafik "DNI_RABOTI1")]
        else []
      let c3 :=
        if (JSValue.getProp gafik "VREMYARABOTY1").jsTruthy then
          ["время работы: " ++ JSValue.jsToString (JSValue.getProp gafik "VREMYARABOTY1")]
        else []
      let joined := String.intercalate ", " (c1 ++ c2 ++ c3)
      .ok (if joined.data.isEmpty then .null else .str joined)
    else
      match gafik with
      | .null => .error "TypeError"
      | _ =>
        match scheduleObj with
        | .str s => .ok (.str s)
        | _ => .ok .null

/-! ## Row formatting (utils/importJobsUtil.js lines 9-80) -/

/-- `ADRESSORABOTI` with a numeric suffix. -/
def addrKey (i : Nat) : String := "ADRESSORABOTI" ++ toString i

/-- The combined address of a row (lines 26-36): the unnumbered
`ADRESSORABOTI` block first, then `ADRESSORABOTI1..8` in index order,
each truthy block extracted and the truthy results joined by `"; "`. -/
def combinedAddress (row : JSValue) : String :=
  let base :=
    if (JSValue.getProp row "ADRESSORABOTI").jsTruthy then
      [extractAddress (JSValue.getProp row "ADRESSORABOTI")]
    else []
  let numbered :=
    (List.range 8).foldl
      (fun acc i =>
        if (JSValue.getProp row (addrKey (i + 1))).jsTruthy then
          acc ++ [extractAddress (JSValue.getProp row (addrKey (i + 1)))]
        else acc)
      base
  joinTruthy "; " numbered

/-- The normalized record built for each kept row (lines 38-58). -/
structure NormalizedJob where
  job_title : JSValue
  publication_date : Option String
  depub_date : Option String
  account_number : JSValue
  account_date : Option String
  company_inn : JSValue
  company_name : JSValue
  phone : JSValue
  email : JSValue
  address : String
  conditions : Option String
  responsibilities : Option String
  requirements : Option String
  schedule : JSValue
  salary : JSValue
  contact_person : JSValue
  extra_info : JSValue

/-- The body of `jobRows.map(row => ...)` (lines 19-58): one normalized
record per row; any `TypeError`/`RangeError` raised by a field
computation aborts the whole import (the surrounding `try`). -/
def formatRow (row : JSValue) : Except String NormalizedJob := do
  let publication_date ← toISODate (JSValue.getProp row "PUBLON")
  let depub_date ← toISODate (JSValue.getProp row "PUBLOFF")
  let account_date ← parseDate (JSValue.getProp row "SCHETDATA")
  let phone ← extractPhone (JSValue.getProp row "TELEF")
  let conditions ← cleanHtmlToTextJS (JSValue.getProp row "DOPINFORMS_USLOVIY")
  let responsibilities ← cleanHtmlToTextJS (JSValue.getProp row "DOPINFORMS_OBYZANOSTI")
  let requirements ← cleanHtmlToTextJS (JSValue.getProp row "DOPINFORMS_TREBOVANIY")
  let schedule ← extractSchedule
    (JSValue.jsOr (JSValue.getProp row "GAFIK_RABOTI1") (JSValue.getProp row "GAFIK_RABOTI"))
  .ok
    { job_title := JSValue.jsOr (JSValue.getProp row "VAKNAZV") .null
      publication_date := publication_date
      depub_date := depub_date
      account_number := JSValue.jsOr (JSValue.getProp row "SCHETNOMER") .null
      account_date := account_date
      company_inn := JSValue.jsOr (JSValue.getProp row "INNKOMPAN") .null
      company_name := JSValue.jsOr (JSValue.getProp row "NAZVKOMPAN") .null
      phone := phone
      email := JSValue.jsOr (JSValue.getProp row "ELPOCHTA") .null
      address := combinedAddress row
      conditions := conditions
      responsibilities := responsibilities
      requirements := requirements
      schedule := schedule
      salary := JSValue.jsOr (JSValue.getProp row "ZARPL") .null
      contact_person := JSValue.jsOr (JSValue.getProp row "KOGOSPROSITJ") .null
      extra_info := JSValue.jsOr (JSValue.getProp row "VAKOPISANIYE") (.str "") }

/-- The row filter of line 17: `rows.filter(row => row.SCHETNOMER || row.VAKNAZV)`. -/
def jobRowsOf (rows : List JSValue) : List JSValue :=
  rows.filter (fun row =>
    (JSValue.getProp row "SCHETNOMER").jsTruthy || (JSValue.getProp row "VAKNAZV").jsTruthy)

/-- The normalization pass of `importJobsFromXmlBuffer` (lines 15-59):
filter the rows, then map `formatRow` over the kept ones (a throw from
any row aborts the batch). -/
def normalizeRows (rows : List JSValue) : Except String (List NormalizedJob) :=
  (jobRowsOf rows).mapM formatRow

end ImportUtil

namespace Server

/-! ## The standalone server variant (second source file)

`extractSchedule` (lines 36-70) pairs day-range tokens (containing `/`)
with time-range tokens (matching `HH:MM-HH:MM`), and `applyImportRules`
(lines 103-140) is the admission policy. -/

/-- `item._ || item`: property access on `null`/`undefined` throws; on a
string/array `._` is `undefined` so the item itself is used; on an object
the `_` payload when truthy, else the object. -/
def contentOf : JSValue → Except String JSValue
  | .null => .error "TypeError"
  | .undefined => .error "TypeError"
  | .str s => .ok (.str s)
  | .obj fields => .ok (JSValue.jsOr (JSValue.getProp (.obj fields) "_") (.obj fields))
  | .arr l => .ok (.arr l)

/-- `content.includes('/')`: substring test on strings, strict-equality
element test on arrays, `TypeError` on a plain object (which has no
`includes` method). -/
def includesSlash : JSValue → Except String Bool
  | .str s => .ok ('/' ∈ s.data)
  | .arr l => .ok (l.any fun v => match v with | .str s => s = "/" | _ => false)
  | _ => .error "TypeError"

/-- `content.startsWith('0')`: a method only strings have. -/
def startsWithZero : JSValue → Except String Bool
  | .str s => .ok (s.data.head? = some '0')
  | _ => .error "TypeError"

/-- The hour alternation `(0?\d|1\d|2[0-3])` followed by `:`; returns the
remainder after the colon.  Backtracking makes the single-digit form win
only when a `:` follows immediately. -/
def parseHourColon : List Char → Option (List Char)
  | a :: b :: rest =>
    if a.isDigit ∧ b = ':' then some rest
    else if a.isDigit ∧ b.isDigit then
      if a = '0' ∨ a = '1' ∨ (a = '2' ∧ b ≤ '3') then
        match rest with
        | ':' :: r => some r
        | _ => none
      else none
    else none
  | _ => none

/-- The minute pattern `[0-5]\d`. -/
def parseMinute : List Char → Option (List Char)
  | a :: b :: rest => if ('0' ≤ a ∧ a ≤ '5') ∧ b.isDigit then some rest else none
  | _ => none

/-- `/^(0?\d|1\d|2[0-3]):([0-5]\d)-(0?\d|1\d|2[0-3]):([0-5]\d)$/.test` on
a string. -/
def timeTest (s : String) : Bool :=
  match parseHourColon s.data with
  | none => false
  | some r1 =>
    match parseMinute r1 with
    | none => false
    | some r2 =>
      match r2 with
      | '-' :: r3 =>
        match parseHourColon r3 with
        | none => false
        | some r4 =>
          match parseMinute r4 with
          | none => false
          | some r5 => r5.isEmpty
      | _ => false

/-- Loop state of `extractSchedule`: `currentDays`, `currentTime` and the
collected phrases. -/
structure SchedState where
  currentDays : JSValue := .null
  currentTime : JSValue := .null
  schedules : List String := []

/-- The trailing `if (currentDays && currentTime)` of each loop
iteration: emit a phrase and reset the pair once both are present. -/
def pairFlush (st1 : SchedState) : SchedState :=
  if st1.currentDays.jsTruthy ∧ st1.currentTime.jsTruthy then
    { currentDays := .null, currentTime := .null,
      schedules := st1.schedules ++
        ["График работы: " ++ JSValue.jsToString st1.currentDays ++
         ", время работы: " ++ JSValue.jsToString st1.currentTime] }
  else st1

/-- One iteration of the `for (const item of gaflikArray)` loop. -/
def schedStep (st : SchedState) (item : JSValue) : Except String SchedState := do
  let content ← contentOf item
  if ¬ content.jsTruthy then .ok st
  else do
    let isDays ← includesSlash content
    let st1 ←
      if isDays then .ok { st with currentDays := content }
      else if timeTest (JSValue.jsToString content) then
        if ¬ st.currentTime.jsTruthy then .ok { st with currentTime := content }
        else do
          let c0 ← startsWithZero content
          if c0 then do
            let t0 ← startsWithZero st.currentTime
            if ¬ t0 then .ok { st with currentTime := content } else .ok st
          else .ok st
      else .ok st
    .ok (pairFlush st1)

/-- `Array.isArray(scheduleBlock.GAFIK) ? scheduleBlock.GAFIK : [scheduleBlock.GAFIK]`. -/
def gafikItems : JSValue → List JSValue
  | .arr l => l
  | v => [v]

/-- `extractSchedule(scheduleBlock)` (lines 36-70): `null` when the block
or its `GAFIK` is falsy; otherwise iterate the (wrapped) `GAFIK` array
pairing day ranges with time ranges, joining phrases with
`", есть ещё "`. -/
def extractSchedule (scheduleBlock : JSValue) : Except String JSValue :=
  if ¬ scheduleBlock.jsTruthy then .ok .null
  else
    let gafik := JSValue.getProp scheduleBlock "GAFIK"
    if ¬ gafik.jsTruthy then .ok .null
    else do
      let st ← (gafikItems gafik).foldlM schedStep {}
      if st.schedules.isEmpty then .ok .null
      else .ok (.str (String.intercalate ", есть ещё " st.schedules))

/-! ## `applyImportRules` (lines 103-140)

Dates are modelled as integers (`depub_date`, `account_date` as calendar
dates; `today` is the current date with the time cleared by
`setHours(0,0,0,0)`).  The Supabase query for rows matching the
candidate's `company_inn` + `job_title` is modelled by filtering an
explicit list of stored records; `fetchFails` models a query error, on
which the code admits the candidate. -/

/-- A persisted `jobs` record as selected by the duplicate check. -/
structure StoredJob where
  id : Nat
  company_inn : Option String
  job_title : Option String
  account_date : Option Int
deriving DecidableEq

/-- The candidate record fields the admission policy inspects. -/
structure JobData where
  job_title : Option String
  company_inn : Option String
  depub_date : Option Int
  account_date : Option Int
deriving DecidableEq

/-- `new Date(x)` of a date-or-null field: `new Date(null)` is the epoch. -/
def dateVal : Option Int → Int
  | none => 0
  | some n => n

/-- The `eq('company_inn', …).eq('job_title', …)` match. -/
def matchesKey (jd : JobData) (e : StoredJob) : Bool :=
  e.company_inn = jd.company_inn ∧ e.job_title = jd.job_title

/-- `applyImportRules(jobData)`: reject when `depub_date <= today`;
on a fetch error admit; when matching rows exist, admit iff the
candidate's `account_date` is strictly newer than the first match's;
otherwise admit.  `true` means `shouldInsert`. -/
def applyImportRules (today : Int) (stored : List StoredJob) (fetchFails : Bool)
    (jd : JobData) : Bool :=
  let depubOk : Bool :=
    match jd.depub_date with
    | some d => decide (today < d)
    | none => true
  if ¬ depubOk then false
  else if fetchFails then true
  else
    match stored.filter (matchesKey jd) with
    | [] => true
    | e :: _ => decide (dateVal e.account_date < dateVal jd.account_date)

end Server

namespace Routes

/-! ## `routes/uploadAndPublish.js`

Jobs here are the rows returned by the insert (`importResult.jobs`), whose
fields are database columns: strings or `null`.  The external
`string-similarity` scorer is a parameter `sim` returning a rational
in `[0,1]`. -/

/-- A job row as returned from the `jobs` table. -/
structure PubJob where
  id : Option Nat := none
  job_title : Option String := none
  company_name : Option String := none
  salary : Option String := none
  schedule : Option String := none
  phone : Option String := none
  email : Option String := none
  responsibilities : Option String := none
  conditions : Option String := none
  requirements : Option String := none
  address : Option String := none
deriving DecidableEq

/-- Truthiness of a string-or-null column. -/
def truthyStr : Option String → Bool
  | some s => !s.data.isEmpty
  | none => false

/-- `String.prototype.toLowerCase` for the alphabets appearing in titles
(ASCII and Cyrillic). -/
def lowerChar (c : Char) : Char :=
  if 'A' ≤ c ∧ c ≤ 'Z' then Char.ofNat (c.toNat + 32)
  else if 'А' ≤ c ∧ c ≤ 'Я' then Char.ofNat (c.toNat + 32)
  else if c = 'Ё' then 'ё'
  else c

/-- Lower-case a whole string. -/
def jsToLowerCase (s : String) : String := String.mk (s.data.map lowerChar)

/-- The clustering threshold of `groupJobsByVacancyName`. -/
def simThreshold : ℚ := 2 / 5

/-- The inner `for (const group of groups)` loop of
`groupJobsByVacancyName` (lines 46-65) for one job: compare the job's
lower-cased title with the lower-cased title of each group's first
member, push into the first group scoring at least the threshold,
else append a new singleton group.  Accessing `job_title.toLowerCase`
on a `null` title (of the job or of a group anchor) is a `TypeError`. -/
def findAndInsert (sim : String → String → ℚ) (job : PubJob) :
    List (List PubJob) → Except String (List (List PubJob))
  | [] => .ok [[job]]
  | g :: gs =>
    match job.job_title with
    | none => .error "TypeError"
    | some jt =>
      match g.head? with
      | none => .error "TypeError"
      | some anchor =>
        match anchor.job_title with
        | none => .error "TypeError"
        | some a0 =>
          if simThreshold ≤ sim (jsToLowerCase jt) (jsToLowerCase a0) then
            .ok ((g ++ [job]) :: gs)
          else (findAndInsert sim job gs).map (fun r => g :: r)

/-- `groupJobsByVacancyName(jobs)` (lines 42-68), parametrized by the
similarity scorer. -/
def groupJobsByVacancyName (sim : String → String → ℚ) (jobs : List PubJob) :
    Except String (List (List PubJob)) :=
  jobs.foldlM (fun groups job => findAndInsert sim job groups) []

/-! ## `createPostMessage` (lines 82-146) -/

/-- The composer's configuration flags. -/
structure PostOptions where
  hideCompanyName : Bool := false
  salaryThreshold : Nat := 0
  includeConditions : Bool := false
  includeResponsibilities : Bool := false
  includeRequirements : Bool := false
  hideAddress : Bool := false
  hideEmail : Bool := false

/-- `x || d` for a string-or-null column with a default. -/
def orDefault (x : Option String) (d : String) : String :=
  match x with
  | some s => if s.data.isEmpty then d else s
  | none => d

/-- `job.salary.replace(/\D/g, '')`: the digit characters of the salary. -/
def digitsOf (s : String) : List Char := s.data.filter Char.isDigit

/-- The `salaryNum` computed for a job (lines 96-100): `0` when the salary
is falsy or contains no digit, else the number formed by its digits. -/
def salaryNumOf (salary : Option String) : Nat :=
  match salary with
  | some s =>
    if s.data.isEmpty then 0
    else if (digitsOf s).isEmpty then 0 else natOfDigits (digitsOf s)
  | none => 0

/-- `salaryText` (lines 102-104): the negotiable placeholder when
`salaryNum` is truthy and below the threshold, else the salary verbatim
(falsy salary prints as `—`). -/
def salaryTextOf (salary : Option String) (thr : Nat) : String :=
  if salaryNumOf salary ≠ 0 ∧ salaryNumOf salary < thr then "По договоренности"
  else orDefault salary "—"

/-- The rendered salary line `Зарплата: …` of one job block (line 118). -/
def salaryLine (salary : Option String) (thr : Nat) : String :=
  "Зарплата: " ++ salaryTextOf salary thr ++ "\n"

/-- One job's block of the post message (the body of the
`jobsGroup.forEach` at lines 95-141). -/
def jobBlock (total : Nat) (o : PostOptions) (idx : Nat) (job : PubJob) : String :=
  let companyText := if o.hideCompanyName then "" else "Компания: " ++ orDefault job.company_name "—"
  let contactsArr :=
    (if truthyStr job.phone then [job.phone.getD ""] else []) ++
    (if (¬ o.hideEmail) ∧ truthyStr job.email then [job.email.getD ""] else [])
  let contactsText :=
    if ¬ contactsArr.isEmpty then "Контакты: " ++ String.intercalate ", " contactsArr
    else "Контакты: —"
  let addressText :=
    if o.hideAddress then ""
    else if truthyStr job.address then "Адрес: " ++ job.address.getD "" else ""
  "📌 Вакансия " ++ (if 1 < total then toString (idx + 1) else "") ++ ": " ++
    orDefault job.job_title "Вакансия" ++ "\n" ++
  (if ¬ companyText.data.isEmpty then companyText ++ "\n" else "") ++
  salaryLine job.salary o.salaryThreshold ++
  (if truthyStr job.schedule then "График: " ++ job.schedule.getD "" ++ "\n" else "") ++
  contactsText ++ "\n" ++
  (if o.includeResponsibilities ∧ truthyStr job.responsibilities then
    "Обязанности: " ++ job.responsibilities.getD "" ++ "\n" else "") ++
  (if o.includeConditions ∧ truthyStr job.conditions then
    "Условия: " ++ job.conditions.getD "" ++ "\n" else "") ++
  (if o.includeRequirements ∧ truthyStr job.requirements then
    "Требования: " ++ job.requirements.getD "" ++ "\n" else "") ++
  (if ¬ addressText.data.isEmpty then addressText ++ "\n" else "") ++
  (if idx < total - 1 then "\n---\n\n" else "")

/-- `createPostMessage(jobsGroup, options)`: the concatenated job blocks
followed by the hashtag footer. -/
def createPostMessage (jobsGroup : List PubJob) (o : PostOptions) : String :=
  String.join (jobsGroup.mapIdx (fun i j => jobBlock jobsGroup.length o i j)) ++
    "\n#работа #вакансия"

/-! ## `postToVkWall` (lines 148-178) and the publish loop (lines 251-269) -/

/-- The parsed body of a VK `wall.post` response: an optional `response`
object carrying the new post id, or an optional error message. -/
structure VkResp where
  post_id : Option Int := none
  error_msg : Option String := none

/-- What `postToVkWall` resolves to: the `try`/`catch` turns transport
errors into `{ success: false, error }`, an API-level reply without
`response` likewise; a `response` yields the permalink. -/
structure PostResult where
  success : Bool
  postId : Option Int := none
  link : Option String := none
  error : Option String := none
deriving DecidableEq

/-- `postToVkWall(message, accessToken, ownerId)`: the transport outcome
(`axios` resolution or rejection) is a parameter. -/
def postToVkWall (ownerId : String) (transport : Except String VkResp) : PostResult :=
  match transport with
  | .error e => { success := false, error := some e }
  | .ok r =>
    match r.post_id with
    | some pid =>
      { success := true, postId := some pid,
        link := some ("https://vk.com/wall" ++ ownerId ++ "_" ++ toString pid) }
    | none =>
      { success := false,
        error := some (orDefault r.error_msg "Unknown VK API error") }

/-- One entry of the route's `results` array:
`{ job_titles: group.map(j => j.job_title), ...vkResult }`. -/
structure ResultEntry where
  job_titles : List (Option String)
  success : Bool
  postId : Option Int := none
  link : Option String := none
  error : Option String := none
deriving DecidableEq

/-- Build the result entry pushed for one group. -/
def mkResultEntry (g : List PubJob) (vk : PostResult) : ResultEntry :=
  { job_titles := g.map (·.job_title), success := vk.success,
    postId := vk.postId, link := vk.link, error := vk.error }

/-- `if (job.id) markJobAsPublished(job.id, link)`: the ids updated for a
successfully published group (`0` is falsy). -/
def publishedIdsOf (g : List PubJob) : List Nat :=
  g.filterMap (fun j =>
    match j.id with
    | some n => if n ≠ 0 then some n else none
    | none => none)

/-- The `for (const group of groupedJobs)` publish loop (lines 251-269):
each group's transport outcome is consumed in order; a failed publish is
recorded in that group's entry and the loop continues; a successful one
additionally marks the group's jobs as published.  Returns the `results`
array and the marked ids; the loop itself never throws. -/
def processGroups (ownerId : String) :
    List (List PubJob) → List (Except String VkResp) → List ResultEntry × List Nat
  | [], _ => ([], [])
  | _ :: _, [] => ([], [])
  | g :: gs, o :: os =>
    let vk := postToVkWall ownerId o
    let rest := processGroups ownerId gs os
    (mkResultEntry g vk :: rest.1,
     (if vk.success then publishedIdsOf g else []) ++ rest.2)

end Routes

/-! ## Claim-side definitions

These definitions follow the wording of the specification (not the code)
and are used to compare the code's behaviour against it. -/

/-- Spec-side (C1): a raw-row field counts as carried iff it is a
non-empty string. -/
def nonemptyStrField : JSValue → Bool
  | .str s => !s.data.isEmpty
  | _ => false

/-- Spec-side (C1): a row is a valid job candidate iff it carries a
non-empty `SCHETNOMER` (account number) or a non-empty `VAKNAZV`
(job title). -/
def claimValidRow (row : JSValue) : Bool :=
  nonemptyStrField (JSValue.getProp row "SCHETNOMER") ||
  nonemptyStrField (JSValue.getProp row "VAKNAZV")

/-- The `SCHETNOMER`/`VAKNAZV` fields of a parsed XML row are absent or
strings (the shapes `xml2js` produces for character-data tags); the C1
theorem assumes this of its rows. -/
def rowFieldsStringish (row : JSValue) : Bool :=
  (match JSValue.getProp row "SCHETNOMER" with
   | .undefined => true | .null => true | .str _ => true | _ => false) &&
  (match JSValue.getProp row "VAKNAZV" with
   | .undefined => true | .null => true | .str _ => true | _ => false)

/-- Number of days of a month in the proleptic Gregorian calendar. -/
def daysInMonth (year : Nat) (month : Nat) : Nat :=
  if month = 2 then
    if year % 4 = 0 ∧ (year % 100 ≠ 0 ∨ year % 400 = 0) then 29 else 28
  else if month = 4 ∨ month = 6 ∨ month = 9 ∨ month = 11 then 30
  else 31

/-- Spec-side (C3): a well-formed ISO calendar date string, `YYYY-MM-DD`
with four/two/two decimal digits and an in-range month and day. -/
def isWellFormedISODate (s : String) : Bool :=
  match s.data with
  | [y1, y2, y3, y4, '-', m1, m2, '-', d1, d2] =>
    (y1.isDigit && y2.isDigit && y3.isDigit && y4.isDigit &&
     m1.isDigit && m2.isDigit && d1.isDigit && d2.isDigit) &&
    (let year := natOfDigits [y1, y2, y3, y4]
     let month := natOfDigits [m1, m2]
     let day := natOfDigits [d1, d2]
     (1 ≤ month && month ≤ 12) && (1 ≤ day && day ≤ daysInMonth year month))
  | _ => false

/-- C4's safety condition for `extractPhone`: the `TELEF_NOMER` field is
not `null` and, when an array, has no `null` element (the shapes on which
`p._` would be evaluated with `p = null`). -/
def phoneShapeSafe (phoneObj : JSValue) : Bool :=
  if ¬ phoneObj.jsTruthy then true
  else
    match JSValue.getProp phoneObj "TELEF_NOMER" with
    | .null => false
    | .arr l => l.all (fun v => match v with | .null => false | _ => true)
    | _ => true

/-- C4's safety condition for `Server.extractSchedule`: every item of the
(wrapped) `GAFIK` sequence is a string, or a tagged object whose `_`
payload is a string (so the loop's `content` is always a string). -/
def gafikItemSafe (item : JSValue) : Bool :=
  match item with
  | .str _ => true
  | .obj fields =>
    (match JSValue.getProp (.obj fields) "_" with
     | .str s => !s.data.isEmpty
     | _ => false)
  | _ => false

/-- C4's safety condition for a whole schedule block. -/
def scheduleShapeSafe (scheduleBlock : JSValue) : Bool :=
  if ¬ scheduleBlock.jsTruthy then true
  else
    let gafik := JSValue.getProp scheduleBlock "GAFIK"
    if ¬ gafik.jsTruthy then true
    else (Server.gafikItems gafik).all gafikItemSafe

namespace Routes

/-- Spec-side (C6): one step of the claimed clustering — scan the existing
clusters in order, join the first whose first member's lower-cased title
scores at least `0.4` against the job's lower-cased title, else start a
new singleton cluster at the end. -/
def groupSpecStep (sim : String → String → ℚ) (job : PubJob) :
    List (List PubJob) → List (List PubJob)
  | [] => [[job]]
  | g :: gs =>
    if simThreshold ≤ sim (jsToLowerCase (job.job_title.getD ""))
        (jsToLowerCase (((g.head?.getD {}).job_title).getD "")) then
      (g ++ [job]) :: gs
    else g :: groupSpecStep sim job gs

/-- Spec-side (C6): the claimed clustering over a whole job list,
processing jobs in input order. -/
def groupSpec (sim : String → String → ℚ) (jobs : List PubJob) : List (List PubJob) :=
  jobs.foldl (fun groups job => groupSpecStep sim job groups) []

end Routes

/-! ## Claim theorems -/

/-- C5: The admission policy rejects a candidate whose `depub_date` is on
or before the current date (equality included); among records sharing the
candidate's `company_inn` and `job_title`, the candidate is admitted iff
its `account_date` is strictly newer than the stored record's; with no
matching stored record it is admitted. -/
theorem applyImportRules_admission (today : Int) (stored : List Server.StoredJob)
    (jd : Server.JobData) :
    (∀ d, jd.depub_date = some d → d ≤ today →
      Server.applyImportRules today stored false jd = false) ∧
    (∀ e rest, (jd.depub_date = none ∨ ∃ d, jd.depub_date = some d ∧ today < d) →
      stored.filter (Server.matchesKey jd) = e :: rest →
      (Server.applyImportRules today stored false jd = true ↔
        Server.dateVal e.account_date < Server.dateVal jd.account_date)) ∧
    ((jd.depub_date = none ∨ ∃ d, jd.depub_date = some d ∧ today < d) →
      stored.filter (Server.matchesKey jd) = [] →
      Server.applyImportRules today stored false jd = true) := by
  refine ⟨?_, ?_, ?_⟩
  · intro d hd hle
    simp [Server.applyImportRules, hd, not_lt.mpr hle]
  · intro e rest hdep hfil
    rcases hdep with h | ⟨d, hd, hlt⟩
    · simp [Server.applyImportRules, h, hfil]
    · simp [Server.applyImportRules, hd, hlt, hfil]
  · intro hdep hfil
    rcases hdep with h | ⟨d, hd, hlt⟩
    · simp [Server.applyImportRules, h, hfil]
    · simp [Server.applyImportRules, hd, hlt, hfil]

/-- Witness for C5: a candidate with a future `depub_date` and an
`account_date` strictly newer than its stored sibling is admitted; one
whose `depub_date` is before today is rejected. -/
theorem applyImportRules_admission_witness :
    ((⟨some "t", some "i", some 20, some 7⟩ : Server.JobData).depub_date = none ∨
      ∃ d, (⟨some "t", some "i", some 20, some 7⟩ : Server.JobData).depub_date = some d ∧
        (10 : Int) < d) ∧
    ([⟨1, some "i", some "t", some 5⟩] : List Server.StoredJob).filter
      (Server.matchesKey ⟨some "t", some "i", some 20, some 7⟩) =
        [⟨1, some "i", some "t", some 5⟩] ∧
    Server.applyImportRules 10 [⟨1, some "i", some "t", some 5⟩] false
      ⟨some "t", some "i", some 20, some 7⟩ = true ∧
    Server.applyImportRules 10 [] false ⟨some "t", some "i", some 3, some 7⟩ = false := by
  refine ⟨Or.inr ⟨20, rfl, by decide⟩, by decide, ?_, ?_⟩
  · exact ((applyImportRules_admission 10 [⟨1, some "i", some "t", some 5⟩]
      ⟨some "t", some "i", some 20, some 7⟩).2.1 ⟨1, some "i", some "t", some 5⟩ []
      (Or.inr ⟨20, rfl, by decide⟩) (by decide)).mpr (by decide)
  · exact (applyImportRules_admission 10 [] ⟨some "t", some "i", some 3, some 7⟩).1
      3 rfl (by decide)

/-- C9: the publish loop produces one result entry per group, each entry
depending only on that group and its own transport outcome (so one
group's failure never affects the others), and a failed outcome is
recorded in the failing group's entry with `success = false` and its
error message.  The loop itself is a total function, i.e. never throws. -/
theorem processGroups_isolates (ownerId : String) (groups : List (List Routes.PubJob))
    (outs : List (Except String Routes.VkResp)) (h : outs.length = groups.length) :
    (Routes.processGroups ownerId groups outs).1.length = groups.length ∧
    (∀ i : Nat, (Routes.processGroups ownerId groups outs).1[i]? =
      (groups[i]?).bind (fun g => (outs[i]?).map
        (fun o => Routes.mkResultEntry g (Routes.postToVkWall ownerId o)))) ∧
    (∀ (i : Nat) (g : List Routes.PubJob) (e : String),
      groups[i]? = some g → outs[i]? = some (Except.error e) →
      ∃ r : Routes.ResultEntry,
        (Routes.processGroups ownerId groups outs).1[i]? = some r ∧
        r.success = false ∧ r.error = some e ∧
        r.job_titles = g.map (fun j => j.job_title)) := by
  induction groups generalizing outs with
  | nil =>
    refine ⟨by simp [Routes.processGroups], ?_, ?_⟩
    · intro i; simp [Routes.processGroups]
    · intro i g e hg; simp at hg
  | cons g gs ih =>
    match outs with
    | [] => simp at h
    | o :: os =>
      simp only [List.length_cons, Nat.succ.injEq] at h
      obtain ⟨h1, h2, h3⟩ := ih os h
      refine ⟨by simpa [Routes.processGroups] using h1, ?_, ?_⟩
      · intro i
        cases i with
        | zero => simp [Routes.processGroups]
        | succ n => simpa [Routes.processGroups] using h2 n
      · intro i g' e hg ho
        cases i with
        | zero =>
          simp at hg ho
          subst ho
          refine ⟨Routes.mkResultEntry g (Routes.postToVkWall ownerId (Except.error e)),
            by simp [Routes.processGroups], rfl, rfl, by simp [Routes.mkResultEntry, hg]⟩
        | succ n =>
          simp at hg ho
          obtain ⟨r, hr, hs, he, ht⟩ := h3 n g' e hg ho
          exact ⟨r, by simpa [Routes.processGroups] using hr, hs, he, ht⟩

/-- Witness for C9: a two-group batch whose first publish fails with
`"boom"` still yields two entries, the first recording the failure. -/
theorem processGroups_isolates_witness :
    ([Except.error "boom", Except.ok {post_id := some 5}] :
        List (Except String Routes.VkResp)).length =
      ([[{job_title := some "a"}], [{job_title := some "b"}]] :
        List (List Routes.PubJob)).length ∧
    (Routes.processGroups "-1" [[{job_title := some "a"}], [{job_title := some "b"}]]
      [Except.error "boom", Except.ok {post_id := some 5}]).1.length = 2 ∧
    (∃ r : Routes.ResultEntry,
      (Routes.processGroups "-1" [[{job_title := some "a"}], [{job_title := some "b"}]]
        [Except.error "boom", Except.ok {post_id := some 5}]).1[0]? = some r ∧
      r.success = false ∧ r.error = some "boom" ∧
      r.job_titles = [some "a"]) := by
  refine ⟨rfl, ?_, ?_⟩
  · exact (processGroups_isolates "-1"
      [[{job_title := some "a"}], [{job_title := some "b"}]]
      [Except.error "boom", Except.ok {post_id := some 5}] rfl).1
  · simpa using (processGroups_isolates "-1"
      [[{job_title := some "a"}], [{job_title := some "b"}]]
      [Except.error "boom", Except.ok {post_id := some 5}] rfl).2.2 0
      [{job_title := some "a"}] "boom" rfl rfl

/-- Counterexample for C8: the salary `"0"` contains digits forming the
number `0`, which is strictly below the threshold `5`, yet the rendered
salary line shows `"0"` verbatim, not the negotiable placeholder
(`salaryNum && …` is falsy at `0`); and the empty salary, which contains
no digits, renders as `"—"` rather than passing through verbatim. -/
theorem salaryLine_counterexample :
    Routes.digitsOf "0" = ['0'] ∧ natOfDigits (Routes.digitsOf "0") = 0 ∧
    natOfDigits (Routes.digitsOf "0") < 5 ∧
    Routes.salaryLine (some "0") 5 = "Зарплата: 0\n" ∧
    Routes.salaryLine (some "0") 5 ≠ "Зарплата: По договоренности\n" ∧
    Routes.salaryLine (some "") 3 = "Зарплата: —\n" := by
  refine ⟨rfl, rfl, by decide, rfl, by decide, rfl⟩

/-- C8 as amended: a salary whose digits form a **positive** number
strictly below the threshold renders as the negotiable placeholder, and a
**non-empty** salary containing no digits passes through verbatim. -/
theorem salaryLine_amended (s : String) (thr : Nat) :
    (0 < Routes.salaryNumOf (some s) → Routes.salaryNumOf (some s) < thr →
      Routes.salaryLine (some s) thr = "Зарплата: По договоренности\n") ∧
    ((∀ c ∈ s.data, ¬ c.isDigit) → ¬ s.data.isEmpty →
      Routes.salaryLine (some s) thr = "Зарплата: " ++ s ++ "\n") := by
  constructor
  · intro h1 h2
    simp [Routes.salaryLine, Routes.salaryTextOf, h1.ne', h2]
  · intro hnod hne
    have hd : Routes.digitsOf s = [] := by
      simp [Routes.digitsOf, List.filter_eq_nil_iff]
      intro c hc
      simpa using hnod c hc
    simp [Routes.salaryLine, Routes.salaryTextOf, Routes.salaryNumOf, hd,
      Routes.orDefault, hne]

/-- Witness for the amended C8: `"300 руб"` below threshold `500` becomes
the placeholder; the digit-free `"дог"` passes through verbatim. -/
theorem salaryLine_amended_witness :
    0 < Routes.salaryNumOf (some "300 руб") ∧ Routes.salaryNumOf (some "300 руб") < 500 ∧
    Routes.salaryLine (some "300 руб") 500 = "Зарплата: По договоренности\n" ∧
    (∀ c ∈ ("дог".data), ¬ c.isDigit) ∧ ¬ ("дог".data).isEmpty ∧
    Routes.salaryLine (some "дог") 500 = "Зарплата: " ++ "дог" ++ "\n" := by
  refine ⟨by decide, by decide, ?_, by decide, by decide, ?_⟩
  · exact (salaryLine_amended "300 руб" 500).1 (by decide) (by decide)
  · exact (salaryLine_amended "дог" 500).2 (by decide) (by decide)

namespace Routes

/-- Invariant: every existing cluster is non-empty and every clustered job has a title. -/
def GroupsWf (groups : List (List PubJob)) : Prop :=
  ∀ g ∈ groups, g ≠ [] ∧ ∀ j ∈ g, j.job_title.isSome

theorem findAndInsert_ok (sim : String → String → ℚ) (job : PubJob) (jt : String)
    (hjt : job.job_title = some jt) :
    ∀ groups : List (List PubJob), GroupsWf groups →
      findAndInsert sim job groups = .ok (groupSpecStep sim job groups) := by
  intro groups
  induction groups with
  | nil => intro _; rfl
  | cons g gs ih =>
    intro hwf
    obtain ⟨hne, hall⟩ := hwf g (List.mem_cons_self _ _)
    obtain ⟨a, as, rfl⟩ := List.exists_cons_of_ne_nil hne
    obtain ⟨a0, ha0⟩ := Option.isSome_iff_exists.mp (hall a (List.mem_cons_self _ _))
    have hwf' : GroupsWf gs := fun g hg => hwf g (List.mem_cons_of_mem _ hg)
    simp only [findAndInsert, groupSpecStep, hjt, ha0, List.head?_cons, Option.getD_some]
    by_cases hsim : simThreshold ≤ sim (jsToLowerCase jt) (jsToLowerCase a0)
    · simp [hsim]
    · simp [hsim, ih hwf', Except.map]

theorem groupSpecStep_wf (sim : String → String → ℚ) (job : PubJob)
    (hjt : job.job_title.isSome) :
    ∀ groups : List (List PubJob), GroupsWf groups →
      GroupsWf (groupSpecStep sim job groups) := by
  intro groups
  induction groups with
  | nil =>
    intro _
    intro g hg
    simp only [groupSpecStep, List.mem_singleton] at hg
    subst hg
    exact ⟨by simp, by simpa using hjt⟩
  | cons g gs ih =>
    intro hwf
    have hg := hwf g (List.mem_cons_self _ _)
    have hwf' : GroupsWf gs := fun x hx => hwf x (List.mem_cons_of_mem _ hx)
    simp only [groupSpecStep]
    by_cases hsim : simThreshold ≤ sim (jsToLowerCase (job.job_title.getD ""))
        (jsToLowerCase (((g.head?.getD {}).job_title).getD ""))
    · simp only [if_pos hsim]
      intro x hx
      rcases List.mem_cons.mp hx with rfl | hx
      · refine ⟨by simp [hg.1], ?_⟩
        intro j hj
        rcases List.mem_append.mp hj with hj | hj
        · exact hg.2 j hj
        · simpa [List.mem_singleton.mp hj] using hjt
      · exact hwf' x hx
    · simp only [if_neg hsim]
      intro x hx
      rcases List.mem_cons.mp hx with rfl | hx
      · exact hg
      · exact ih hwf' x hx

theorem groupJobs_fold (sim : String → String → ℚ) :
    ∀ (jobs : List PubJob) (groups : List (List PubJob)),
      (∀ j ∈ jobs, j.job_title.isSome) → GroupsWf groups →
      jobs.foldlM (fun gr job => findAndInsert sim job gr) groups =
        .ok (jobs.foldl (fun gr job => groupSpecStep sim job gr) groups) := by
  intro jobs
  induction jobs with
  | nil => intro groups _ _; rfl
  | cons j rest ih =>
    intro groups hall hwf
    have hj : j.job_title.isSome := hall j (List.mem_cons_self _ _)
    obtain ⟨jt, hjt⟩ := Option.isSome_iff_exists.mp hj
    have hrest : ∀ x ∈ rest, x.job_title.isSome := fun x hx => hall x (List.mem_cons_of_mem _ hx)
    simp only [List.foldlM_cons, List.foldl_cons, findAndInsert_ok sim j jt hjt groups hwf]
    simpa using ih (groupSpecStep sim j groups) hrest (groupSpecStep_wf sim j hj groups hwf)

/-- C6: fuzzy title clustering processes jobs in input order; each job
joins the first existing cluster whose first member's lower-cased title
scores at least `0.4` against the job's lower-cased title (first match
wins), otherwise it starts a new singleton cluster appended after the
existing clusters — i.e. the code refines the spec-side `groupSpec`
whenever every job carries a title. -/
theorem groupJobsByVacancyName_spec (sim : String → String → ℚ) (jobs : List PubJob)
    (h : ∀ j ∈ jobs, j.job_title.isSome) :
    groupJobsByVacancyName sim jobs = .ok (groupSpec sim jobs) :=
  groupJobs_fold sim jobs [] h (by intro g hg; simp at hg)

theorem findAndInsert_err_none (sim : String → String → ℚ) (job : PubJob)
    (hjt : job.job_title = none) (g : List PubJob) (gs : List (List PubJob)) :
    findAndInsert sim job (g :: gs) = .error "TypeError" := by
  simp [findAndInsert, hjt]

theorem groupJobs_err (sim : String → String → ℚ) :
    ∀ (jobs : List PubJob) (groups : List (List PubJob)),
      GroupsWf groups → groups ≠ [] → (∃ j ∈ jobs, j.job_title = none) →
      jobs.foldlM (fun gr job => findAndInsert sim job gr) groups = .error "TypeError" := by
  intro jobs
  induction jobs with
  | nil => intro groups _ _ h; simp at h
  | cons j rest ih =>
    intro groups hwf hne hex
    obtain ⟨g, gs, rfl⟩ := List.exists_cons_of_ne_nil hne
    cases hjt : j.job_title with
    | none =>
      rw [List.foldlM_cons, findAndInsert_err_none sim j hjt g gs]
      rfl
    | some jt =>
      have hex' : ∃ x ∈ rest, x.job_title = none := by
        rcases hex with ⟨x, hx, hxn⟩
        rcases List.mem_cons.mp hx with rfl | hx
        · rw [hjt] at hxn; exact absurd hxn (by simp)
        · exact ⟨x, hx, hxn⟩
      rw [List.foldlM_cons, findAndInsert_ok sim j jt hjt (g :: gs) hwf]
      have hwf2 := groupSpecStep_wf sim j (by simp [hjt]) (g :: gs) hwf
      have hne2 : groupSpecStep sim j (g :: gs) ≠ [] := by
        simp only [groupSpecStep]
        by_cases hsim : simThreshold ≤ sim (jsToLowerCase (j.job_title.getD ""))
            (jsToLowerCase (((g.head?.getD {}).job_title).getD ""))
        · simp [hsim]
        · simp [hsim]
      simpa using ih (groupSpecStep sim j (g :: gs)) hwf2 hne2 hex'

/-- C10 as amended: with at least two jobs, any list containing a job
with an absent title makes `groupJobsByVacancyName` throw a `TypeError`
(either the absent-titled job is compared against an existing cluster, or
it anchors the first cluster and the next job's comparison reads its
title). -/
theorem groupJobsByVacancyName_null_title (sim : String → String → ℚ)
    (jobs : List PubJob) (hlen : 2 ≤ jobs.length)
    (hex : ∃ j ∈ jobs, j.job_title = none) :
    groupJobsByVacancyName sim jobs = .error "TypeError" := by
  obtain ⟨j1, j2, rest, rfl⟩ : ∃ a b r, jobs = a :: b :: r := by
    cases jobs with
    | nil => simp at hlen
    | cons a t =>
      cases t with
      | nil => simp at hlen
      | cons b r => exact ⟨a, b, r, rfl⟩
  · have hstep1 : findAndInsert sim j1 [] = .ok [[j1]] := rfl
    cases hjt : j1.job_title with
    | none =>
      simp only [groupJobsByVacancyName, List.foldlM_cons, hstep1]
      have hbind : ∀ rest2 : List PubJob,
          findAndInsert sim j2 [[j1]] = Except.error "TypeError" →
          (do
            let init ← findAndInsert sim j2 [[j1]]
            List.foldlM (fun gr job => findAndInsert sim job gr) init rest2) =
            Except.error "TypeError" := by
        intro rest2 herr
        rw [herr]
        rfl
      refine hbind rest ?_
      cases hjt2 : j2.job_title with
      | none => simp [findAndInsert, hjt2]
      | some t2 => simp [findAndInsert, hjt2, hjt]
    | some t1 =>
      have hex' : ∃ x ∈ j2 :: rest, x.job_title = none := by
        rcases hex with ⟨x, hx, hxn⟩
        rcases List.mem_cons.mp hx with rfl | hx
        · rw [hjt] at hxn; exact absurd hxn (by simp)
        · exact ⟨x, hx, hxn⟩
      have hwf : GroupsWf [[j1]] := by
        intro g hg
        simp only [List.mem_singleton] at hg
        subst hg
        exact ⟨by simp, by simp [hjt]⟩
      simp only [groupJobsByVacancyName, List.foldlM_cons, hstep1]
      simpa using groupJobs_err sim (j2 :: rest) [[j1]] hwf (by simp) hex'

/-- Counterexample for C10: a singleton list whose only job has an absent
title does **not** throw — the first job is pushed as a new group before
any title is ever read, so the call returns that singleton cluster. -/
theorem groupJobsByVacancyName_single_null :
    Routes.groupJobsByVacancyName (fun _ _ => 0) [{job_title := none}] =
      .ok [[{job_title := none}]] := rfl

/-- Witness for the amended C10. -/
theorem groupJobsByVacancyName_null_title_witness :
    2 ≤ ([{job_title := some "Водитель"}, {job_title := none}] : List PubJob).length ∧
    (∃ j ∈ ([{job_title := some "Водитель"}, {job_title := none}] : List PubJob),
      j.job_title = none) ∧
    groupJobsByVacancyName (fun _ _ => 0)
      [{job_title := some "Водитель"}, {job_title := none}] = .error "TypeError" := by
  refine ⟨by decide, ⟨{job_title := none}, by simp, rfl⟩, ?_⟩
  exact groupJobsByVacancyName_null_title (fun _ _ => 0) _ (by decide)
    ⟨{job_title := none}, by simp, rfl⟩

/-- Witness for C6. -/
theorem groupJobsByVacancyName_spec_witness :
    (∀ j ∈ ([{job_title := some "Водитель категории B"},
             {job_title := some "Водитель-экспедитор"},
             {job_title := some "Бухгалтер"}] : List PubJob), j.job_title.isSome) ∧
    groupJobsByVacancyName (fun _ _ => 1)
      [{job_title := some "Водитель категории B"},
       {job_title := some "Водитель-экспедитор"},
       {job_title := some "Бухгалтер"}] =
      .ok (groupSpec (fun _ _ => 1)
        [{job_title := some "Водитель категории B"},
         {job_title := some "Водитель-экспедитор"},
         {job_title := some "Бухгалтер"}]) := by
  refine ⟨by decide, ?_⟩
  exact groupJobsByVacancyName_spec (fun _ _ => 1) _ (by decide)

end Routes

namespace ImportUtil

/-- A string-or-absent field is truthy iff it is a non-empty string. -/
theorem jsTruthy_eq_nonemptyStrField (v : JSValue)
    (h : (match v with
          | .undefined => true | .null => true | .str _ => true | _ => false) = true) :
    v.jsTruthy = nonemptyStrField v := by
  cases v <;> simp_all [JSValue.jsTruthy, nonemptyStrField]

/-- C1: over rows whose `SCHETNOMER`/`VAKNAZV` fields are strings or
absent (the shapes the XML parser produces), normalization keeps exactly
the rows carrying a non-empty account number or a non-empty job title —
the kept rows are `rows.filter claimValidRow`, in input order, and the
normalized output is the image of exactly those rows. -/
theorem normalizeRows_validity (rows : List JSValue)
    (h : rows.all rowFieldsStringish = true) :
    jobRowsOf rows = rows.filter claimValidRow ∧
    normalizeRows rows = (rows.filter claimValidRow).mapM formatRow := by
  have hfil : jobRowsOf rows = rows.filter claimValidRow := by
    apply List.filter_congr
    intro row hrow
    have hr := List.all_eq_true.mp h row hrow
    simp only [rowFieldsStringish, Bool.and_eq_true] at hr
    rw [claimValidRow, jsTruthy_eq_nonemptyStrField _ hr.1, jsTruthy_eq_nonemptyStrField _ hr.2]
  exact ⟨hfil, by rw [normalizeRows, hfil]⟩

/-- Witness for C1: of four rows — titled, neither-field, account-only,
empty-title — exactly the titled and the account-only rows are kept. -/
theorem normalizeRows_validity_witness :
    ([JSValue.obj [("VAKNAZV", JSValue.str "Инженер"), ("SCHETDATA", JSValue.str "05.03.24")],
      JSValue.obj [("INNKOMPAN", JSValue.str "123")],
      JSValue.obj [("SCHETNOMER", JSValue.str "A-1")],
      JSValue.obj [("VAKNAZV", JSValue.str "")]] :
      List JSValue).all rowFieldsStringish = true ∧
    jobRowsOf
      [JSValue.obj [("VAKNAZV", JSValue.str "Инженер"), ("SCHETDATA", JSValue.str "05.03.24")],
       JSValue.obj [("INNKOMPAN", JSValue.str "123")],
       JSValue.obj [("SCHETNOMER", JSValue.str "A-1")],
       JSValue.obj [("VAKNAZV", JSValue.str "")]] =
      [JSValue.obj [("VAKNAZV", JSValue.str "Инженер"), ("SCHETDATA", JSValue.str "05.03.24")],
       JSValue.obj [("SCHETNOMER", JSValue.str "A-1")]] ∧
    normalizeRows
      [JSValue.obj [("VAKNAZV", JSValue.str "Инженер"), ("SCHETDATA", JSValue.str "05.03.24")],
       JSValue.obj [("INNKOMPAN", JSValue.str "123")],
       JSValue.obj [("SCHETNOMER", JSValue.str "A-1")],
       JSValue.obj [("VAKNAZV", JSValue.str "")]] =
      ([JSValue.obj [("VAKNAZV", JSValue.str "Инженер"), ("SCHETDATA", JSValue.str "05.03.24")],
        JSValue.obj [("INNKOMPAN", JSValue.str "123")],
        JSValue.obj [("SCHETNOMER", JSValue.str "A-1")],
        JSValue.obj [("VAKNAZV", JSValue.str "")]].filter claimValidRow).mapM formatRow := by
  have h := normalizeRows_validity
    [JSValue.obj [("VAKNAZV", JSValue.str "Инженер"), ("SCHETDATA", JSValue.str "05.03.24")],
     JSValue.obj [("INNKOMPAN", JSValue.str "123")],
     JSValue.obj [("SCHETNOMER", JSValue.str "A-1")],
     JSValue.obj [("VAKNAZV", JSValue.str "")]] (by rfl)
  refine ⟨rfl, ?_, h.2⟩
  rw [h.1]
  rfl

end ImportUtil

namespace ImportUtil

theorem splitDot_no_dot (a : List Char) (h : '.' ∉ a) : splitDot a = [a] := by
  induction a with
  | nil => rfl
  | cons c cs ih =>
    have hc : c ≠ '.' := fun hc => h (hc ▸ List.mem_cons_self _ _)
    have hcs : '.' ∉ cs := fun hm => h (List.mem_cons_of_mem _ hm)
    simp [splitDot, hc, ih hcs]

theorem splitDot_append (a b : List Char) (h : '.' ∉ a) :
    splitDot (a ++ '.' :: b) = a :: splitDot b := by
  induction a with
  | nil => simp [splitDot]
  | cons c cs ih =>
    have hc : c ≠ '.' := fun hc => h (hc ▸ List.mem_cons_self _ _)
    have hcs : '.' ∉ cs := fun hm => h (List.mem_cons_of_mem _ hm)
    simp only [List.cons_append, splitDot, List.append_eq]
    rw [if_neg hc, ih hcs]

theorem natOfDigits_century (y1 y2 : Char) :
    natOfDigits ['2', '0', y1, y2] = 2000 + natOfDigits [y1, y2] := by
  simp [natOfDigits, digitToNat, List.foldl]
  ring

theorem isDigit_ne_dot (c : Char) (h : c.isDigit = true) : c ≠ '.' := by
  intro hEq
  subst hEq
  simp [Char.isDigit] at h

theorem parseDate_wf_aux (day month year : List Char)
    (hd : '.' ∉ day) (hm : '.' ∉ month) (hy : '.' ∉ year) :
    splitDot (day ++ '.' :: (month ++ '.' :: year)) = [day, month, year] := by
  rw [splitDot_append _ _ hd, splitDot_append _ _ hm, splitDot_no_dot _ hy]

/-- C3 as amended: `parseDate` (the `account_date` rule) yields a
well-formed ISO calendar date exactly for inputs of the documented shapes
`DD.MM.YY` / `DD.MM.YYYY` with in-range numeric components (two-digit
years land in the 2000s); outside those shapes it can emit malformed
strings (see the counterexample), so the invariant holds only on the
documented input family. -/
theorem parseDate_amended
    (d1 d2 m1 m2 y1 y2 y3 y4 : Char)
    (hd1 : d1.isDigit = true) (hd2 : d2.isDigit = true)
    (hm1 : m1.isDigit = true) (hm2 : m2.isDigit = true)
    (hy1 : y1.isDigit = true) (hy2 : y2.isDigit = true) :
    (1 ≤ natOfDigits [m1, m2] → natOfDigits [m1, m2] ≤ 12 →
     1 ≤ natOfDigits [d1, d2] →
     natOfDigits [d1, d2] ≤ daysInMonth (2000 + natOfDigits [y1, y2]) (natOfDigits [m1, m2]) →
     parseDate (.str (String.mk [d1, d2, '.', m1, m2, '.', y1, y2])) =
        .ok (some (String.mk ['2', '0', y1, y2, '-', m1, m2, '-', d1, d2])) ∧
      isWellFormedISODate (String.mk ['2', '0', y1, y2, '-', m1, m2, '-', d1, d2]) = true) ∧
    (y3.isDigit = true → y4.isDigit = true →
     1 ≤ natOfDigits [m1, m2] → natOfDigits [m1, m2] ≤ 12 →
     1 ≤ natOfDigits [d1, d2] →
     natOfDigits [d1, d2] ≤ daysInMonth (natOfDigits [y1, y2, y3, y4]) (natOfDigits [m1, m2]) →
     parseDate (.str (String.mk [d1, d2, '.', m1, m2, '.', y1, y2, y3, y4])) =
        .ok (some (String.mk [y1, y2, y3, y4, '-', m1, m2, '-', d1, d2])) ∧
      isWellFormedISODate (String.mk [y1, y2, y3, y4, '-', m1, m2, '-', d1, d2]) = true) := by
  have hdum : '.' ∉ [d1, d2] := by
    intro hmem
    rcases List.mem_cons.mp hmem with h | h
    · exact isDigit_ne_dot d1 hd1 h.symm
    · exact isDigit_ne_dot d2 hd2 (List.mem_singleton.mp h).symm
  have hmum : '.' ∉ [m1, m2] := by
    intro hmem
    rcases List.mem_cons.mp hmem with h | h
    · exact isDigit_ne_dot m1 hm1 h.symm
    · exact isDigit_ne_dot m2 hm2 (List.mem_singleton.mp h).symm
  constructor
  · intro h1 h2 h3 h4
    have hyum : '.' ∉ [y1, y2] := by
      intro hmem
      rcases List.mem_cons.mp hmem with h | h
      · exact isDigit_ne_dot y1 hy1 h.symm
      · exact isDigit_ne_dot y2 hy2 (List.mem_singleton.mp h).symm
    have hsplit : splitDot [d1, d2, '.', m1, m2, '.', y1, y2] =
        [[d1, d2], [m1, m2], [y1, y2]] :=
      parseDate_wf_aux [d1, d2] [m1, m2] [y1, y2] hdum hmum hyum
    constructor
    · simp [parseDate, parseDateCore, hsplit]
    · simp only [isWellFormedISODate, String.mk]
      simp [hd1, hd2, hm1, hm2, hy1, hy2, natOfDigits_century, h1, h2, h3, h4]
  · intro hy3 hy4 h1 h2 h3 h4
    have hyum : '.' ∉ [y1, y2, y3, y4] := by
      intro hmem
      rcases List.mem_cons.mp hmem with h | h
      · exact isDigit_ne_dot y1 hy1 h.symm
      rcases List.mem_cons.mp h with h | h
      · exact isDigit_ne_dot y2 hy2 h.symm
      rcases List.mem_cons.mp h with h | h
      · exact isDigit_ne_dot y3 hy3 h.symm
      · exact isDigit_ne_dot y4 hy4 (List.mem_singleton.mp h).symm
    have hsplit : splitDot [d1, d2, '.', m1, m2, '.', y1, y2, y3, y4] =
        [[d1, d2], [m1, m2], [y1, y2, y3, y4]] :=
      parseDate_wf_aux [d1, d2] [m1, m2] [y1, y2, y3, y4] hdum hmum hyum
    constructor
    · simp [parseDate, parseDateCore, hsplit]
    · simp only [isWellFormedISODate, String.mk]
      simp [hd1, hd2, hm1, hm2, hy1, hy2, hy3, hy4, h1, h2, h3, h4]

/-- Counterexample for C3: the dotted inputs `"1.2.345"` (year length 3)
and `"a.b.c"` (non-date tokens between two dots) make `parseDate` return
the malformed strings `"345-2-1"` and `"c-b-a"` instead of absent. -/
theorem parseDate_counterexample :
    parseDate (.str "1.2.345") = .ok (some "345-2-1") ∧
    isWellFormedISODate "345-2-1" = false ∧
    parseDate (.str "a.b.c") = .ok (some "c-b-a") ∧
    isWellFormedISODate "c-b-a" = false := by
  refine ⟨rfl, by decide, rfl, by decide⟩

/-- Witness for the amended C3, including the spec's own example
`"05.03.24" → "2024-03-05"` and a leap-day four-digit-year case. -/
theorem parseDate_amended_witness :
    parseDate (.str "05.03.24") = .ok (some "2024-03-05") ∧
    isWellFormedISODate "2024-03-05" = true ∧
    parseDate (.str "29.02.2024") = .ok (some "2024-02-29") ∧
    isWellFormedISODate "2024-02-29" = true := by
  have h1 := (parseDate_amended '0' '5' '0' '3' '2' '4' '2' '4'
    (by decide) (by decide) (by decide) (by decide) (by decide) (by decide)).1
    (by decide) (by decide) (by decide) (by decide)
  have h2 := (parseDate_amended '2' '9' '0' '2' '2' '0' '2' '4'
    (by decide) (by decide) (by decide) (by decide) (by decide) (by decide)).2
    (by decide) (by decide) (by decide) (by decide) (by decide) (by decide)
  exact ⟨h1.1, h1.2, h2.1, h2.2⟩

end ImportUtil


theorem phoneElem_ok (x : JSValue)
    (hx : (match x with | JSValue.null => false | _ => true) = true) :
    ∃ r, ImportUtil.phoneElem x = .ok r := by
  cases x <;> simp_all [ImportUtil.phoneElem]

theorem mapPhoneElems_ok (l : List JSValue)
    (h : l.all (fun v => match v with | JSValue.null => false | _ => true) = true) :
    ∃ parts, ImportUtil.mapPhoneElems l = .ok parts := by
  induction l with
  | nil => exact ⟨[], rfl⟩
  | cons x xs ih =>
    simp only [List.all_cons, Bool.and_eq_true] at h
    obtain ⟨r, hr⟩ := phoneElem_ok x h.1
    obtain ⟨parts, hp⟩ := ih h.2
    exact ⟨r :: parts, by simp [ImportUtil.mapPhoneElems, hr, hp]⟩

/-- Well-shaped loop state: `currentTime` is `null` or a string. -/
def TimeOk (st : Server.SchedState) : Prop :=
  st.currentTime = JSValue.null ∨ ∃ s, st.currentTime = JSValue.str s

theorem pairFlush_timeOk (st1 : Server.SchedState) (h : TimeOk st1) :
    TimeOk (Server.pairFlush st1) := by
  unfold Server.pairFlush
  by_cases hc : st1.currentDays.jsTruthy ∧ st1.currentTime.jsTruthy
  · rw [if_pos hc]; exact Or.inl rfl
  · rw [if_neg hc]; exact h

theorem schedStep_ok (st : Server.SchedState) (item : JSValue)
    (hst : TimeOk st) (hi : gafikItemSafe item = true) :
    ∃ st2, Server.schedStep st item = .ok st2 ∧ TimeOk st2 := by
  have hcontent : ∃ s, Server.contentOf item = .ok (JSValue.str s) := by
    cases item with
    | str s => exact ⟨s, rfl⟩
    | obj fields =>
      simp only [gafikItemSafe] at hi
      cases hu : JSValue.getProp (JSValue.obj fields) "_" with
      | str s =>
        rw [hu] at hi
        refine ⟨s, ?_⟩
        simp only [Server.contentOf, JSValue.jsOr, JSValue.jsTruthy, hu]
        simpa using hi
      | undefined => rw [hu] at hi; simp at hi
      | null => rw [hu] at hi; simp at hi
      | obj f2 => rw [hu] at hi; simp at hi
      | arr l2 => rw [hu] at hi; simp at hi
    | undefined => simp [gafikItemSafe] at hi
    | null => simp [gafikItemSafe] at hi
    | arr l => simp [gafikItemSafe] at hi
  obtain ⟨s, hs⟩ := hcontent
  by_cases hemp : JSValue.jsTruthy (JSValue.str s)
  · simp only [Server.schedStep, hs]
    by_cases hsl : ('/' ∈ s.data)
    · exact ⟨Server.pairFlush { st with currentDays := JSValue.str s },
        by simp [Server.includesSlash, hsl, hemp],
        pairFlush_timeOk _ hst⟩
    · by_cases htt : Server.timeTest (JSValue.jsToString (JSValue.str s))
      · by_cases hct : st.currentTime.jsTruthy
        · rcases hst with hnull | ⟨t, hstr⟩
          · rw [hnull] at hct; simp [JSValue.jsTruthy] at hct
          · have httrue : (JSValue.str t).jsTruthy = true := hstr ▸ hct
            by_cases hc0 : s.data.head? = some '0'
            · by_cases ht0 : t.data.head? = some '0'
              · exact ⟨Server.pairFlush st,
                  by simp [Server.includesSlash, hsl, hemp, htt, hct, hstr,
                    Server.startsWithZero, hc0, ht0, httrue],
                  pairFlush_timeOk _ (Or.inr ⟨t, hstr⟩)⟩
              · exact ⟨Server.pairFlush { st with currentTime := JSValue.str s },
                  by simp [Server.includesSlash, hsl, hemp, htt, hct, hstr,
                    Server.startsWithZero, hc0, ht0, httrue],
                  pairFlush_timeOk _ (Or.inr ⟨s, rfl⟩)⟩
            · exact ⟨Server.pairFlush st,
                by simp [Server.includesSlash, hsl, hemp, htt, hct, hstr,
                  Server.startsWithZero, hc0, httrue],
                pairFlush_timeOk _ (Or.inr ⟨t, hstr⟩)⟩
        · exact ⟨Server.pairFlush { st with currentTime := JSValue.str s },
            by simp [Server.includesSlash, hsl, hemp, htt, hct],
            pairFlush_timeOk _ (Or.inr ⟨s, rfl⟩)⟩
      · exact ⟨Server.pairFlush st,
          by simp [Server.includesSlash, hsl, hemp, htt],
          pairFlush_timeOk _ hst⟩
  · exact ⟨st, by simp [Server.schedStep, hs, hemp], hst⟩

theorem foldSched_ok (items : List JSValue) (st : Server.SchedState)
    (hst : TimeOk st) (h : items.all gafikItemSafe = true) :
    ∃ st2, items.foldlM Server.schedStep st = .ok st2 := by
  induction items generalizing st with
  | nil => exact ⟨st, rfl⟩
  | cons x xs ih =>
    simp only [List.all_cons, Bool.and_eq_true] at h
    obtain ⟨st1, hstep, ht1⟩ := schedStep_ok st x hst h.1
    obtain ⟨st2, hrest⟩ := ih st1 ht1 h.2
    exact ⟨st2, by simp [List.foldlM_cons, hstep, hrest]⟩

theorem extractSchedule_total (v : JSValue) (h : scheduleShapeSafe v = true) :
    ∃ r, Server.extractSchedule v = .ok r := by
  by_cases hv : v.jsTruthy
  · by_cases hg : (JSValue.getProp v "GAFIK").jsTruthy
    · have hitems : (Server.gafikItems (JSValue.getProp v "GAFIK")).all gafikItemSafe = true := by
        simpa [scheduleShapeSafe, hv, hg] using h
      obtain ⟨st2, hfold⟩ :=
        foldSched_ok (Server.gafikItems (JSValue.getProp v "GAFIK")) {} (Or.inl rfl) hitems
      by_cases hemp : st2.schedules.isEmpty
      · exact ⟨JSValue.null, by simp [Server.extractSchedule, hv, hg, hfold, List.isEmpty_iff.mp hemp]⟩
      · have hemp2 : ¬ st2.schedules = [] := by simpa [List.isEmpty_iff] using hemp
        exact ⟨JSValue.str (String.intercalate ", есть ещё " st2.schedules),
          by simp [Server.extractSchedule, hv, hg, hfold, hemp2]⟩
    · exact ⟨JSValue.null, by simp [Server.extractSchedule, hv, hg]⟩
  · exact ⟨JSValue.null, by simp [Server.extractSchedule, hv]⟩

theorem extractPhone_total (v : JSValue) (h : phoneShapeSafe v = true) :
    ∃ r, ImportUtil.extractPhone v = .ok r := by
  by_cases hv : v.jsTruthy
  · simp only [phoneShapeSafe, hv] at h
    cases hp : JSValue.getProp v "TELEF_NOMER" with
    | arr l =>
      rw [hp] at h
      simp only [if_true, reduceIte] at h
      obtain ⟨parts, hparts⟩ := mapPhoneElems_ok l (by simpa using h)
      exact ⟨JSValue.str (String.intercalate ", " (parts.map JSValue.arrElemToString)),
        by simp [ImportUtil.extractPhone, hv, hp, hparts]⟩
    | null => rw [hp] at h; simp at h
    | obj fields =>
      by_cases hu : (JSValue.getProp (JSValue.obj fields) "_").jsTruthy
      · exact ⟨JSValue.getProp (JSValue.obj fields) "_",
          by simp [ImportUtil.extractPhone, hv, hp, hu]⟩
      · exact ⟨JSValue.null, by simp [ImportUtil.extractPhone, hv, hp, hu]⟩
    | str s => exact ⟨JSValue.str s, by simp [ImportUtil.extractPhone, hv, hp]⟩
    | undefined => exact ⟨JSValue.null, by simp [ImportUtil.extractPhone, hv, hp]⟩
  · exact ⟨JSValue.null, by simp [ImportUtil.extractPhone, hv]⟩

theorem extractAddress_total (v : JSValue) :
    ImportUtil.extractAddress v = JSValue.null ∨
      ∃ s, ImportUtil.extractAddress v = JSValue.str s := by
  by_cases hv : v.jsTruthy
  · refine Or.inr ⟨ImportUtil.joinTruthy ", "
      [ImportUtil.getAddressComponent v "OBLAST", ImportUtil.getAddressComponent v "GOROD",
       ImportUtil.getAddressComponent v "ULICA", ImportUtil.getAddressComponent v "DOM"], ?_⟩
    simp [ImportUtil.extractAddress, hv]
  · exact Or.inl (by simp [ImportUtil.extractAddress, hv])

/-- C4 as amended: `extractAddress` is total on every input shape
(returning `null` or a string); `extractPhone` returns a result provided
the `TELEF_NOMER` field is not `null` and contains no `null` element
(otherwise `p._` on `null` throws); the server variant of
`extractSchedule` returns a result provided every `GAFIK` item carries a
string payload (a tagged object without a usable string payload reaches
`content.includes`, which throws). -/
theorem extractors_total :
    (∀ v : JSValue, ImportUtil.extractAddress v = JSValue.null ∨
        ∃ s, ImportUtil.extractAddress v = JSValue.str s) ∧
    (∀ v : JSValue, phoneShapeSafe v = true →
        ∃ r, ImportUtil.extractPhone v = .ok r) ∧
    (∀ v : JSValue, scheduleShapeSafe v = true →
        ∃ r, Server.extractSchedule v = .ok r) :=
  ⟨extractAddress_total, extractPhone_total, extractSchedule_total⟩

/-- Counterexample for C4: a `GAFIK` tagged object without a string
payload makes `extractSchedule` throw a `TypeError` at
`content.includes('/')`, and a `null` phone entry (or a `null`
`TELEF_NOMER`) makes `extractPhone` throw at `p._` — the extractors are
not total on every unrecognized shape. -/
theorem extractors_counterexample :
    Server.extractSchedule
        (.obj [("GAFIK", .obj [("X", .str "y")])]) = .error "TypeError" ∧
    ImportUtil.extractPhone (.obj [("TELEF_NOMER", .arr [.null])]) = .error "TypeError" ∧
    ImportUtil.extractPhone (.obj [("TELEF_NOMER", .null)]) = .error "TypeError" := by
  exact ⟨rfl, rfl, rfl⟩

/-- Witness for the amended C4 on well-shaped inputs. -/
theorem extractors_total_witness :
    phoneShapeSafe (.obj [("TELEF_NOMER", .arr [.str "77", .obj [("_", .str "88")]])]) = true ∧
    scheduleShapeSafe (.obj [("GAFIK", .arr [.str "пн/пт", .str "8:00-17:00"])]) = true ∧
    (ImportUtil.extractAddress (.str "x") = JSValue.null ∨
      ∃ s, ImportUtil.extractAddress (.str "x") = JSValue.str s) ∧
    (∃ r, ImportUtil.extractPhone
      (.obj [("TELEF_NOMER", .arr [.str "77", .obj [("_", .str "88")]])]) = .ok r) ∧
    (∃ r, Server.extractSchedule
      (.obj [("GAFIK", .arr [.str "пн/пт", .str "8:00-17:00"])]) = .ok r) := by
  refine ⟨rfl, rfl, extractors_total.1 (.str "x"), ?_, ?_⟩
  · exact extractors_total.2.1 _ rfl
  · exact extractors_total.2.2 _ rfl

section C7sec
open ImportUtil

theorem intercalate_go_data (sep : String) :
    ∀ (as : List String) (acc : String),
      ∃ r, (String.intercalate.go acc sep as).data = acc.data ++ r := by
  intro as
  induction as with
  | nil => intro acc; exact ⟨[], by simp [String.intercalate.go]⟩
  | cons a as ih =>
    intro acc
    obtain ⟨r, hr⟩ := ih (acc ++ sep ++ a)
    refine ⟨sep.data ++ a.data ++ r, ?_⟩
    simp only [String.intercalate.go, hr, String.data_append]
    simp [List.append_assoc]

theorem intercalate_ne_empty (sep : String) (l : List String)
    (hne : l ≠ []) (hall : ∀ x ∈ l, x.data ≠ []) :
    (String.intercalate sep l).data ≠ [] := by
  obtain ⟨a, as, rfl⟩ := List.exists_cons_of_ne_nil hne
  obtain ⟨r, hr⟩ := intercalate_go_data sep as a
  simp only [String.intercalate, hr]
  have := hall a (List.mem_cons_self _ _)
  intro hcontra
  rcases List.append_eq_nil.mp hcontra with ⟨h1, _⟩
  exact this h1

/-- Spec-side (C7): join the present (non-empty) components with a separator. -/
def joinPresent (sep : String) (parts : List String) : String :=
  String.intercalate sep (parts.filter (fun s => !s.data.isEmpty))

theorem joinTruthy_strs (sep : String) (parts : List String) :
    ImportUtil.joinTruthy sep (parts.map JSValue.str) = joinPresent sep parts := by
  unfold ImportUtil.joinTruthy joinPresent
  rw [List.filter_map]
  rw [List.map_map]
  congr 1
  · induction parts with
    | nil => rfl
    | cons p ps ih =>
      by_cases hp : p.data.isEmpty <;>
        simp [JSValue.jsTruthy, JSValue.jsToString, Function.comp, hp, ih]

theorem joinPresent_ne (sep : String) (parts : List String)
    (h : parts.any (fun s => !s.data.isEmpty) = true) :
    (joinPresent sep parts).data ≠ [] := by
  apply intercalate_ne_empty
  · obtain ⟨x, hx, hxne⟩ := List.any_eq_true.mp h
    exact List.ne_nil_of_mem (List.mem_filter.mpr ⟨hx, hxne⟩)
  · intro x hx
    have := (List.mem_filter.mp hx).2
    simpa using this

/-- C7: over a row whose only address blocks are `ADRESSORABOTI2` and
`ADRESSORABOTI5`, each block extracts to its present (non-empty)
region/city/street/house components joined by `", "`, and the combined
address is exactly the two block strings joined by `"; "` in block-index
order (each block assumed to have at least one present component). -/
theorem combinedAddress_two_blocks (r2 c2 s2 d2 r5 c5 s5 d5 : String)
    (h2 : ([r2, c2, s2, d2].any (fun s => !s.data.isEmpty)) = true)
    (h5 : ([r5, c5, s5, d5].any (fun s => !s.data.isEmpty)) = true) :
    ImportUtil.extractAddress (JSValue.obj
        [("ADRESSORABOTI2-OBLAST", JSValue.str r2), ("ADRESSORABOTI2-GOROD", JSValue.str c2),
         ("ADRESSORABOTI2-ULICA", JSValue.str s2), ("ADRESSORABOTI2-DOM", JSValue.str d2)]) =
      JSValue.str (joinPresent ", " [r2, c2, s2, d2]) ∧
    ImportUtil.extractAddress (JSValue.obj
        [("ADRESSORABOTI5-OBLAST", JSValue.str r5), ("ADRESSORABOTI5-GOROD", JSValue.str c5),
         ("ADRESSORABOTI5-ULICA", JSValue.str s5), ("ADRESSORABOTI5-DOM", JSValue.str d5)]) =
      JSValue.str (joinPresent ", " [r5, c5, s5, d5]) ∧
    ImportUtil.combinedAddress (JSValue.obj
        [("ADRESSORABOTI2", JSValue.obj
            [("ADRESSORABOTI2-OBLAST", JSValue.str r2), ("ADRESSORABOTI2-GOROD", JSValue.str c2),
             ("ADRESSORABOTI2-ULICA", JSValue.str s2), ("ADRESSORABOTI2-DOM", JSValue.str d2)]),
         ("ADRESSORABOTI5", JSValue.obj
            [("ADRESSORABOTI5-OBLAST", JSValue.str r5), ("ADRESSORABOTI5-GOROD", JSValue.str c5),
             ("ADRESSORABOTI5-ULICA", JSValue.str s5), ("ADRESSORABOTI5-DOM", JSValue.str d5)])]) =
      joinPresent ", " [r2, c2, s2, d2] ++ "; " ++ joinPresent ", " [r5, c5, s5, d5] := by
  have hext2 : ImportUtil.extractAddress (JSValue.obj
      [("ADRESSORABOTI2-OBLAST", JSValue.str r2), ("ADRESSORABOTI2-GOROD", JSValue.str c2),
       ("ADRESSORABOTI2-ULICA", JSValue.str s2), ("ADRESSORABOTI2-DOM", JSValue.str d2)]) =
      JSValue.str (ImportUtil.joinTruthy ", "
        ([r2, c2, s2, d2].map JSValue.str)) := rfl
  have hext5 : ImportUtil.extractAddress (JSValue.obj
      [("ADRESSORABOTI5-OBLAST", JSValue.str r5), ("ADRESSORABOTI5-GOROD", JSValue.str c5),
       ("ADRESSORABOTI5-ULICA", JSValue.str s5), ("ADRESSORABOTI5-DOM", JSValue.str d5)]) =
      JSValue.str (ImportUtil.joinTruthy ", "
        ([r5, c5, s5, d5].map JSValue.str)) := rfl
  rw [joinTruthy_strs] at hext2 hext5
  refine ⟨hext2, hext5, ?_⟩
  have hcomb : ImportUtil.combinedAddress (JSValue.obj
      [("ADRESSORABOTI2", JSValue.obj
          [("ADRESSORABOTI2-OBLAST", JSValue.str r2), ("ADRESSORABOTI2-GOROD", JSValue.str c2),
           ("ADRESSORABOTI2-ULICA", JSValue.str s2), ("ADRESSORABOTI2-DOM", JSValue.str d2)]),
       ("ADRESSORABOTI5", JSValue.obj
          [("ADRESSORABOTI5-OBLAST", JSValue.str r5), ("ADRESSORABOTI5-GOROD", JSValue.str c5),
           ("ADRESSORABOTI5-ULICA", JSValue.str s5), ("ADRESSORABOTI5-DOM", JSValue.str d5)])]) =
      ImportUtil.joinTruthy "; "
        [ImportUtil.extractAddress (JSValue.obj
          [("ADRESSORABOTI2-OBLAST", JSValue.str r2), ("ADRESSORABOTI2-GOROD", JSValue.str c2),
           ("ADRESSORABOTI2-ULICA", JSValue.str s2), ("ADRESSORABOTI2-DOM", JSValue.str d2)]),
         ImportUtil.extractAddress (JSValue.obj
          [("ADRESSORABOTI5-OBLAST", JSValue.str r5), ("ADRESSORABOTI5-GOROD", JSValue.str c5),
           ("ADRESSORABOTI5-ULICA", JSValue.str s5), ("ADRESSORABOTI5-DOM", JSValue.str d5)])] := rfl
  rw [hcomb, hext2, hext5]
  have ht2 : JSValue.jsTruthy (JSValue.str (joinPresent ", " [r2, c2, s2, d2])) = true := by
    simp only [JSValue.jsTruthy, Bool.not_eq_true']
    simpa [List.isEmpty_iff] using joinPresent_ne ", " [r2, c2, s2, d2] h2
  have ht5 : JSValue.jsTruthy (JSValue.str (joinPresent ", " [r5, c5, s5, d5])) = true := by
    simp only [JSValue.jsTruthy, Bool.not_eq_true']
    simpa [List.isEmpty_iff] using joinPresent_ne ", " [r5, c5, s5, d5] h5
  simp only [ImportUtil.joinTruthy, List.filter, ht2, ht5]
  simp [JSValue.jsToString, String.intercalate, String.intercalate.go]

/-- Witness for C7: blocks 2 and 5 with partially present components. -/
theorem combinedAddress_two_blocks_witness :
    (["Обл", "", "Ленина", "5"].any (fun s => !s.data.isEmpty)) = true ∧
    (["", "Городец", "", ""].any (fun s => !s.data.isEmpty)) = true ∧
    ImportUtil.combinedAddress (JSValue.obj
        [("ADRESSORABOTI2", JSValue.obj
            [("ADRESSORABOTI2-OBLAST", JSValue.str "Обл"), ("ADRESSORABOTI2-GOROD", JSValue.str ""),
             ("ADRESSORABOTI2-ULICA", JSValue.str "Ленина"), ("ADRESSORABOTI2-DOM", JSValue.str "5")]),
         ("ADRESSORABOTI5", JSValue.obj
            [("ADRESSORABOTI5-OBLAST", JSValue.str ""), ("ADRESSORABOTI5-GOROD", JSValue.str "Городец"),
             ("ADRESSORABOTI5-ULICA", JSValue.str ""), ("ADRESSORABOTI5-DOM", JSValue.str "")])]) =
      joinPresent ", " ["Обл", "", "Ленина", "5"] ++ "; " ++
        joinPresent ", " ["", "Городец", "", ""] ∧
    joinPresent ", " ["Обл", "", "Ленина", "5"] ++ "; " ++
        joinPresent ", " ["", "Городец", "", ""] = "Обл, Ленина, 5; Городец" := by
  refine ⟨rfl, rfl, ?_, rfl⟩
  exact (combinedAddress_two_blocks "Обл" "" "Ленина" "5" "" "Городец" "" "" rfl rfl).2.2

end C7sec

namespace ImportUtil

/-! Identity of the three scans on markup-free input. -/

theorem liGo_free : ∀ (n : Nat) (l : List Char), '<' ∉ l → liGo n l = [] := by
  intro n
  induction n with
  | zero => intro l _; rfl
  | succ n ih =>
    intro l hl
    match l with
    | [] => rfl
    | c :: cs =>
      have hc : c ≠ '<' := fun h => hl (h ▸ List.mem_cons_self _ _)
      have hcs : '<' ∉ cs := fun h => hl (List.mem_cons_of_mem _ h)
      have hls : startsLi (c :: cs) = false := by
        cases cs with
        | nil => rfl
        | cons b bs =>
          cases bs with
          | nil => rfl
          | cons e es => simp [startsLi, hc]
      simp [liGo, hls, ih cs hcs]

theorem brGo_free : ∀ (n : Nat) (l : List Char), '<' ∉ l → brGo n l = l := by
  intro n
  induction n with
  | zero => intro l _; rfl
  | succ n ih =>
    intro l hl
    match l with
    | [] => rfl
    | c :: cs =>
      have hc : c ≠ '<' := fun h => hl (h ▸ List.mem_cons_self _ _)
      have hcs : '<' ∉ cs := fun h => hl (List.mem_cons_of_mem _ h)
      have htb : tryBr (c :: cs) = none := by
        cases cs with
        | nil => simp [tryBr]
        | cons b bs =>
          cases bs with
          | nil => simp [tryBr, hc]
          | cons e es => simp [tryBr, hc]
      simp [brGo, htb, ih cs hcs]

theorem tagGo_free : ∀ (n : Nat) (l : List Char), '<' ∉ l → tagGo n l = l := by
  intro n
  induction n with
  | zero => intro l _; rfl
  | succ n ih =>
    intro l hl
    match l with
    | [] => rfl
    | c :: cs =>
      have hc : c ≠ '<' := fun h => hl (h ▸ List.mem_cons_self _ _)
      have hcs : '<' ∉ cs := fun h => hl (List.mem_cons_of_mem _ h)
      simp [tagGo, hc, ih cs hcs]

/-! Shape of `collapseWs` output: every whitespace is a single space and
no two adjacent whitespace characters remain. -/

/-- Adjacent characters are never both whitespace. -/
def NoWsRun (l : List Char) : Prop :=
  l.Chain' (fun a b => ¬ (isJsWs a = true ∧ isJsWs b = true))

/-- All whitespace characters are the plain space. -/
def WsIsSpace (l : List Char) : Prop :=
  ∀ c ∈ l, isJsWs c = true → c = ' '

theorem mem_collapseGo (b : Bool) (l : List Char) (c : Char)
    (h : c ∈ collapseGo b l) : c ∈ l ∨ c = ' ' := by
  induction l generalizing b with
  | nil => simp [collapseGo] at h
  | cons x xs ih =>
    by_cases hx : isJsWs x
    · cases b with
      | true =>
        simp only [collapseGo, hx, if_true, reduceIte] at h
        rcases ih true h with h1 | h1
        · exact Or.inl (List.mem_cons_of_mem _ h1)
        · exact Or.inr h1
      | false =>
        simp only [collapseGo, hx, if_true, reduceIte] at h
        rcases List.mem_cons.mp h with rfl | h1
        · exact Or.inr rfl
        · rcases ih true h1 with h2 | h2
          · exact Or.inl (List.mem_cons_of_mem _ h2)
          · exact Or.inr h2
    · simp only [collapseGo, hx] at h
      rcases List.mem_cons.mp h with rfl | h1
      · exact Or.inl (List.mem_cons_self _ _)
      · rcases ih false h1 with h2 | h2
        · exact Or.inl (List.mem_cons_of_mem _ h2)
        · exact Or.inr h2

theorem wsIsSpace_collapseGo (b : Bool) (l : List Char) :
    WsIsSpace (collapseGo b l) := by
  induction l generalizing b with
  | nil => intro c hc; simp [collapseGo] at hc
  | cons x xs ih =>
    intro c hc hws
    by_cases hx : isJsWs x
    · cases b with
      | true =>
        simp only [collapseGo, hx, if_true, reduceIte] at hc
        exact ih true c hc hws
      | false =>
        simp only [collapseGo, hx, if_true, reduceIte] at hc
        rcases List.mem_cons.mp hc with rfl | h1
        · rfl
        · exact ih true c h1 hws
    · simp only [collapseGo, hx] at hc
      rcases List.mem_cons.mp hc with rfl | h1
      · exact absurd hws (by simp [hx])
      · exact ih false c h1 hws

/-- After `collapseGo true` the output never starts with whitespace. -/
theorem collapseGo_true_head (l : List Char) :
    ∀ c rest, collapseGo true l = c :: rest → isJsWs c = false := by
  induction l with
  | nil => intro c rest h; simp [collapseGo] at h
  | cons x xs ih =>
    intro c rest h
    by_cases hx : isJsWs x
    · simp only [collapseGo, hx, if_true, reduceIte] at h
      exact ih c rest h
    · simp [collapseGo, hx] at h
      rw [← h.1]
      simpa using hx

theorem noWsRun_collapseGo (b : Bool) (l : List Char) :
    NoWsRun (collapseGo b l) := by
  induction l generalizing b with
  | nil => simp [collapseGo, NoWsRun]
  | cons x xs ih =>
    by_cases hx : isJsWs x
    · cases b with
      | true => simpa [collapseGo, hx] using ih true
      | false =>
        have hstep : collapseGo false (x :: xs) = ' ' :: collapseGo true xs := by
          simp [collapseGo, hx]
        rw [hstep, NoWsRun, List.chain'_cons']
        refine ⟨?_, ih true⟩
        intro y hy
        intro hcon
        match hcy : collapseGo true xs with
        | [] => rw [hcy] at hy; simp at hy
        | z :: zs =>
          rw [hcy] at hy
          simp at hy
          rw [← hy] at hcon
          have hz := collapseGo_true_head xs z zs hcy
          rw [hcon.2] at hz
          simp at hz
    · have hstep : collapseGo b (x :: xs) = x :: collapseGo false xs := by
        simp [collapseGo, hx]
      rw [hstep, NoWsRun, List.chain'_cons']
      refine ⟨?_, ih false⟩
      intro y hy hcon
      exact absurd hcon.1 (by simp [hx])

/-! Fixed points of collapsing and trimming. -/

theorem dropWhile_dropWhile (p : Char → Bool) (l : List Char) :
    (l.dropWhile p).dropWhile p = l.dropWhile p := by
  induction l with
  | nil => rfl
  | cons x xs ih =>
    by_cases hx : p x
    · simp [List.dropWhile_cons, hx, ih]
    · simp [List.dropWhile_cons, hx]

theorem dropWhile_head_false (p : Char → Bool) (l : List Char) (c : Char) (rest : List Char)
    (h : l.dropWhile p = c :: rest) : p c = false := by
  induction l with
  | nil => simp at h
  | cons x xs ih =>
    by_cases hx : p x
    · simp [List.dropWhile_cons, hx] at h
      exact ih h
    · simp [List.dropWhile_cons, hx] at h
      rw [← h.1]
      simpa using hx

theorem trimRight_idem (l : List Char) : trimRight (trimRight l) = trimRight l := by
  unfold trimRight
  rw [List.reverse_reverse, dropWhile_dropWhile]

theorem mem_trimRight (l : List Char) (c : Char) (h : c ∈ trimRight l) : c ∈ l := by
  unfold trimRight at h
  have := (List.dropWhile_sublist isJsWs (l := l.reverse)).mem (List.mem_reverse.mp h)
  exact List.mem_reverse.mp this

theorem mem_jsTrim (l : List Char) (c : Char) (h : c ∈ jsTrim l) : c ∈ l := by
  unfold jsTrim at h
  exact (List.dropWhile_sublist isJsWs (l := l)).mem (mem_trimRight _ _ h)

theorem noWsRun_suffix (l₁ l₂ : List Char) (h : l₁ <:+ l₂) (hc : NoWsRun l₂) : NoWsRun l₁ :=
  List.Chain'.suffix hc h

theorem noWsRun_reverse (l : List Char) (h : NoWsRun l) : NoWsRun l.reverse := by
  rw [NoWsRun, List.chain'_reverse]
  exact List.Chain'.imp (fun a b hab h2 => hab ⟨h2.2, h2.1⟩) h

theorem noWsRun_trimRight (l : List Char) (h : NoWsRun l) : NoWsRun (trimRight l) := by
  unfold trimRight
  exact noWsRun_reverse _ (noWsRun_suffix _ _ (List.dropWhile_suffix isJsWs) (noWsRun_reverse l h))

theorem noWsRun_jsTrim (l : List Char) (h : NoWsRun l) : NoWsRun (jsTrim l) := by
  unfold jsTrim
  exact noWsRun_trimRight _ (noWsRun_suffix _ _ (List.dropWhile_suffix isJsWs) h)

theorem wsIsSpace_jsTrim (l : List Char) (h : WsIsSpace l) : WsIsSpace (jsTrim l) :=
  fun c hc hw => h c (mem_jsTrim l c hc) hw

/-- Head-shape: `True` for empty, non-whitespace head otherwise. -/
def HeadNotWs : List Char → Prop
  | [] => True
  | c :: _ => isJsWs c = false

theorem collapseGo_fixed (l : List Char) (hrun : NoWsRun l) (hsp : WsIsSpace l) :
    collapseGo false l = l ∧ (HeadNotWs l → collapseGo true l = l) := by
  induction l with
  | nil => exact ⟨rfl, fun _ => rfl⟩
  | cons x xs ih =>
    have hrun' : NoWsRun xs := (List.chain'_cons'.mp hrun).2
    have hadj := (List.chain'_cons'.mp hrun).1
    have hsp' : WsIsSpace xs := fun c hc hw => hsp c (List.mem_cons_of_mem _ hc) hw
    obtain ⟨ih1, ih2⟩ := ih hrun' hsp'
    by_cases hx : isJsWs x
    · have hxsp : x = ' ' := hsp x (List.mem_cons_self _ _) hx
      have hxs : HeadNotWs xs := by
        cases xs with
        | nil => trivial
        | cons y ys =>
          have := hadj y rfl
          show isJsWs y = false
          by_cases hy : isJsWs y
          · exact absurd ⟨hx, hy⟩ this
          · simpa using hy
      constructor
      · have : collapseGo false (x :: xs) = ' ' :: collapseGo true xs := by
          simp [collapseGo, hx]
        rw [this, ih2 hxs, hxsp]
      · intro hh
        exact absurd hx (by simpa [HeadNotWs] using hh)
    · have hstep : ∀ b : Bool, collapseGo b (x :: xs) = x :: collapseGo false xs := by
        intro b; simp [collapseGo, hx]
      exact ⟨by rw [hstep false, ih1], fun _ => by rw [hstep true, ih1]⟩

theorem dropWhile_append_single (p : Char → Bool) (v : List Char) (c : Char)
    (hc : p c = false) : ∃ w, List.dropWhile p (v ++ [c]) = w ++ [c] := by
  induction v with
  | nil => exact ⟨[], by simp [List.dropWhile_cons, hc]⟩
  | cons x v ih =>
    by_cases hx : p x
    · obtain ⟨w, hw⟩ := ih
      exact ⟨w, by simp [List.dropWhile_cons, hx, hw]⟩
    · exact ⟨x :: v, by simp [List.dropWhile_cons, hx]⟩

theorem trimRight_cons (c : Char) (rest : List Char) (hc : isJsWs c = false) :
    ∃ w, trimRight (c :: rest) = c :: w := by
  unfold trimRight
  obtain ⟨w, hw⟩ := dropWhile_append_single isJsWs rest.reverse c hc
  rw [show (c :: rest).reverse = rest.reverse ++ [c] by simp, hw]
  exact ⟨w.reverse, by simp⟩

theorem jsTrim_idem (l : List Char) : jsTrim (jsTrim l) = jsTrim l := by
  unfold jsTrim
  match hy : l.dropWhile isJsWs with
  | [] =>
    simp [trimRight]
  | c :: rest =>
    have hc : isJsWs c = false := dropWhile_head_false isJsWs l c rest hy
    obtain ⟨w, hw⟩ := trimRight_cons c rest hc
    rw [hw, List.dropWhile_cons, hc]
    simp only [Bool.false_eq_true, if_false]
    rw [← hw, trimRight_idem]

theorem cleanCore_free (l : List Char) (h : '<' ∉ l) :
    cleanCore l =
      (if (jsTrim (collapseWs l)).isEmpty then none else some (jsTrim (collapseWs l))) := by
  unfold cleanCore
  rw [show liCaptures l = [] from liGo_free _ _ h]
  unfold brReplace tagStrip
  rw [brGo_free _ _ h, tagGo_free _ _ h]
  simp

/-- C2 as amended: the sanitizer is idempotent on markup-free inputs
(strings containing no `<`); on such inputs the output is the
whitespace-collapsed, trimmed text, which re-sanitizes to itself.  The
original universal idempotence fails because the list-item branch can
emit nested markup (see the counterexample). -/
theorem cleanHtmlToText_amended (s : String) (h : '<' ∉ s.data) :
    cleanHtmlToText (cleanHtmlToText (some s)) = cleanHtmlToText (some s) := by
  by_cases hemp : s.data.isEmpty
  · simp [cleanHtmlToText, hemp]
  · have hrw : cleanHtmlToText (some s) =
        (if (jsTrim (collapseWs s.data)).isEmpty then none
         else some (String.mk (jsTrim (collapseWs s.data)))) := by
      simp only [cleanHtmlToText, hemp, Bool.false_eq_true, if_false, cleanCore_free s.data h]
      by_cases ht : (jsTrim (collapseWs s.data)).isEmpty <;> simp [ht]
    by_cases htemp : (jsTrim (collapseWs s.data)).isEmpty
    · rw [hrw]
      simp [htemp, cleanHtmlToText]
    · rw [hrw]
      simp only [htemp, Bool.false_eq_true, if_false]
      have hmem : '<' ∉ jsTrim (collapseWs s.data) := by
        intro hm
        rcases mem_collapseGo false s.data '<' (mem_jsTrim _ _ hm) with hin | hsp
        · exact h hin
        · exact absurd hsp (by decide)
      have hfix : jsTrim (collapseWs (jsTrim (collapseWs s.data))) =
          jsTrim (collapseWs s.data) := by
        have hrun : NoWsRun (jsTrim (collapseWs s.data)) :=
          noWsRun_jsTrim _ (noWsRun_collapseGo false s.data)
        have hsp : WsIsSpace (jsTrim (collapseWs s.data)) :=
          wsIsSpace_jsTrim _ (wsIsSpace_collapseGo false s.data)
        have hcol : collapseWs (jsTrim (collapseWs s.data)) = jsTrim (collapseWs s.data) :=
          (collapseGo_fixed _ hrun hsp).1
        rw [hcol, jsTrim_idem]
      simp only [cleanHtmlToText, htemp, Bool.false_eq_true, if_false,
        cleanCore_free _ hmem, hfix, htemp]
      simp

/-- Counterexample for C2: the list-item branch of the sanitizer keeps
nested markup inside item captures — `"<li>a</li> <li><b>c</b></li>"`
sanitizes to `"a, <b>c</b>"`, but sanitizing that output strips the
`<b>` tags and yields `"a, c"`, so `sanitize ∘ sanitize ≠ sanitize`. -/
theorem cleanHtmlToText_counterexample :
    cleanHtmlToText (some "<li>a</li> <li><b>c</b></li>") = some "a, <b>c</b>" ∧
    cleanHtmlToText (cleanHtmlToText (some "<li>a</li> <li><b>c</b></li>")) = some "a, c" ∧
    cleanHtmlToText (cleanHtmlToText (some "<li>a</li> <li><b>c</b></li>")) ≠
      cleanHtmlToText (some "<li>a</li> <li><b>c</b></li>") :=
  ⟨rfl, rfl, by decide⟩

/-- Witness for the amended C2 on a markup-free string with extra
whitespace. -/
theorem cleanHtmlToText_amended_witness :
    ('<' ∉ ("Hello  world ".data)) ∧
    cleanHtmlToText (cleanHtmlToText (some "Hello  world ")) =
      cleanHtmlToText (some "Hello  world ") :=
  ⟨by decide, cleanHtmlToText_amended "Hello  world " (by decide)⟩

end ImportUtil
